import Mathlib

/-!
Shallow embedding of the mem0-go client library (github.com/intx4/mem0-go).

The embedding covers the parts of `types/mem0.go` and the client file that the
verified claims touch: the generic struct-to-query encoder `structToQuery`, the
JSON `omitempty` marshalling of the option structs, the filter normalizer
`fixAPIV2Filters`, the payload builder `preparePayload`, the request assembly of
`Search` and `GetAll`, client construction `NewMemoryClient` /
`validateOrgProject`, the shared non-200 response handling, and the request
paths of the identifier-taking operations.

Modelling conventions:
- Go strings are modelled as Lean `String` / `List Char`, identifying a Go byte
  with a character; this is exact for single-byte (ASCII / Latin-1) content, and
  theorems about percent-escaping carry the byte bound explicitly.
- Go `float64` is modelled as an exact decimal `GoFloat` (integer mantissa and
  decimal exponent); `strconv.FormatFloat(f, 'f', -1, 64)` is modelled as the
  exact decimal rendering. Binary rounding and negative zero are outside the
  model; no verified claim depends on them.
- Go `map[string]any` values are modelled as association lists of JSON values
  (`FMap`); Go's in-place map mutation becomes functional update, and claims
  about maps are stated through the lookup function `FMap.get`.
- A `nil` Go map is distinguished from an empty one by using `Option FMap`.
- `encoding/json` marshalling of a map sorts its keys byte-wise; the model sorts
  with a stable insertion sort over the byte order.
-/

namespace Mem0

/-- JSON values, the model of the trees produced by `encoding/json`.
Numbers carry an exact decimal mantissa/exponent pair. -/
inductive JVal where
  | null
  | bool (b : Bool)
  | num (mantissa : Int) (exp : Nat)
  | str (s : String)
  | arr (xs : List JVal)
  | obj (kvs : List (String × JVal))

/-- Test for the JSON `null` value (Go `nil`). -/
def JVal.isNull : JVal → Bool
  | .null => true
  | _ => false

/-- Association-list model of a Go `map[string]any`. -/
abbrev FMap := List (String × JVal)

/-- Lookup of a key, the model of Go's `m[k]` / `_, ok := m[k]`. -/
def FMap.get : FMap → String → Option JVal
  | [], _ => none
  | kv :: rest, key => if kv.1 = key then some kv.2 else FMap.get rest key

/-- Key removal, the model of Go's `delete(m, k)`. -/
def FMap.erase : FMap → String → FMap
  | [], _ => []
  | kv :: rest, key => if kv.1 = key then FMap.erase rest key else kv :: FMap.erase rest key

/-- Assignment `m[k] = v`: replaces the entry when the key is present,
appends otherwise. -/
def FMap.set : FMap → String → JVal → FMap
  | [], key, v => [(key, v)]
  | kv :: rest, key, v => if kv.1 = key then (key, v) :: rest else kv :: FMap.set rest key v

theorem FMap.get_erase (m : FMap) (k key : String) :
    (m.erase key).get k = if k = key then none else m.get k := by
  induction m with
  | nil => simp [FMap.erase, FMap.get]
  | cons kv rest ih =>
    simp only [FMap.erase]
    by_cases h1 : kv.1 = key
    · rw [if_pos h1, ih]
      by_cases h2 : k = key
      · simp [h2]
      · have hkv : ¬ kv.1 = k := by rw [h1]; intro h; exact h2 h.symm
        simp [FMap.get, h2, hkv]
    · rw [if_neg h1]
      by_cases h2 : kv.1 = k
      · have hk : ¬ k = key := by intro h; rw [h2, h] at h1; exact h1 rfl
        simp [FMap.get, h2, hk]
      · simp only [FMap.get, h2, if_false, ih]

theorem FMap.get_set (m : FMap) (k key : String) (v : JVal) :
    (m.set key v).get k = if k = key then some v else m.get k := by
  induction m with
  | nil =>
    by_cases h : k = key
    · simp [FMap.set, FMap.get, h]
    · simp [FMap.set, FMap.get, h, Ne.symm h]
  | cons kv rest ih =>
    simp only [FMap.set]
    by_cases h1 : kv.1 = key
    · rw [if_pos h1]
      by_cases h2 : k = key
      · simp [FMap.get, h2]
      · have hkv : ¬ kv.1 = k := by rw [h1]; intro h; exact h2 h.symm
        simp [FMap.get, h2, Ne.symm h2, hkv, h1]
    · rw [if_neg h1]
      by_cases h2 : kv.1 = k
      · have hk : ¬ k = key := by intro h; rw [h2, h] at h1; exact h1 rfl
        simp [FMap.get, h2, hk]
      · simp only [FMap.get, h2, if_false, ih]

/-- Merge of a decoded options map into a payload map, the model of
`for k, v := range optionsMap { if v != nil { payload[k] = v } }`. -/
def FMap.mergeFrom (base : FMap) (kvs : FMap) : FMap :=
  kvs.foldl (fun acc kv => if kv.2.isNull then acc else acc.set kv.1 kv.2) base

theorem FMap.get_mergeFrom_of_not_mem (base : FMap) (kvs : FMap) (k : String)
    (h : k ∉ kvs.map Prod.fst) : (base.mergeFrom kvs).get k = base.get k := by
  induction kvs generalizing base with
  | nil => rfl
  | cons kv rest ih =>
    simp only [List.map_cons, List.mem_cons, not_or] at h
    simp only [FMap.mergeFrom, List.foldl_cons]
    by_cases hn : kv.2.isNull = true
    · simpa [hn] using ih base h.2
    · have := ih (base.set kv.1 kv.2) h.2
      simp only [FMap.mergeFrom] at this
      simp [hn, this, FMap.get_set, h.1]

theorem FMap.get_mergeFrom_of_mem (base : FMap) (kvs : FMap) (k : String) (v : JVal)
    (hnd : (kvs.map Prod.fst).Nodup) (hmem : (k, v) ∈ kvs) (hv : v.isNull = false) :
    (base.mergeFrom kvs).get k = some v := by
  induction kvs generalizing base with
  | nil => cases hmem
  | cons kv rest ih =>
    simp only [List.map_cons, List.nodup_cons] at hnd
    simp only [FMap.mergeFrom, List.foldl_cons]
    rcases List.mem_cons.mp hmem with heq | hrest
    · subst heq
      simp only [hv, Bool.false_eq_true, if_false]
      have hk : k ∉ rest.map Prod.fst := hnd.1
      have := FMap.get_mergeFrom_of_not_mem (base.set k v) rest k hk
      simp only [FMap.mergeFrom] at this
      simp [this, FMap.get_set]
    · have hkv : kv.1 ≠ k := by
        intro h
        exact hnd.1 (h ▸ List.mem_map_of_mem Prod.fst hrest)
      by_cases hn : kv.2.isNull = true
      · simpa [hn] using ih base hnd.2 hrest
      · simpa [hn] using ih (base.set kv.1 kv.2) hnd.2 hrest

/-- Uniqueness of values for a key in a list with distinct keys. -/
theorem mem_unique_of_nodup_keys {α : Type} (l : List (String × α))
    (hnd : (l.map Prod.fst).Nodup) {k : String} {v w : α}
    (hv : (k, v) ∈ l) (hw : (k, w) ∈ l) : v = w := by
  induction l with
  | nil => cases hv
  | cons kv rest ih =>
    simp only [List.map_cons, List.nodup_cons] at hnd
    rcases List.mem_cons.mp hv with h1 | h1 <;> rcases List.mem_cons.mp hw with h2 | h2
    · exact congrArg Prod.snd (h1.trans h2.symm)
    · exfalso
      have hk : k ∈ rest.map Prod.fst := List.mem_map_of_mem Prod.fst h2
      rw [← h1] at hnd
      exact hnd.1 hk
    · exfalso
      have hk : k ∈ rest.map Prod.fst := List.mem_map_of_mem Prod.fst h1
      rw [← h2] at hnd
      exact hnd.1 hk
    · exact ih hnd.2 h1 h2

/-- Exact decimal model of a Go `float64` value: `mantissa / 10 ^ exp`. -/
structure GoFloat where
  mantissa : Int := 0
  exp : Nat := 0
deriving DecidableEq, Repr

/-- Removal of trailing `'0'` characters. -/
def trimTrailingZeros (l : List Char) : List Char :=
  (l.reverse.dropWhile (· = '0')).reverse

/-- Decimal digits of `n` left-padded with zeros to the given width. -/
def padDigits (n : Nat) (width : Nat) : List Char :=
  let ds := Nat.toDigits 10 n
  List.replicate (width - ds.length) '0' ++ ds

/-- Model of `strconv.FormatFloat(f, 'f', -1, 64)`: sign, integer part, and the
exact fractional digits with trailing zeros removed. -/
def GoFloat.format (f : GoFloat) : String :=
  let sign : String := if f.mantissa < 0 then "-" else ""
  let m := f.mantissa.natAbs
  let p := 10 ^ f.exp
  let frac := trimTrailingZeros (padDigits (m % p) f.exp)
  sign ++ toString (m / p) ++ (if frac.isEmpty then "" else "." ++ String.mk frac)

/-- Zero test of a float, matching both `reflect.Value.IsZero` and the
`omitempty` emptiness test on the exact-decimal model. -/
def GoFloat.isZero (f : GoFloat) : Bool := f.mantissa = 0

/-- Alphanumeric test used by net/url's shouldEscape. -/
def isAlphaNumChar (c : Char) : Bool :=
  ('a'.toNat ≤ c.toNat && c.toNat ≤ 'z'.toNat) ||
  ('A'.toNat ≤ c.toNat && c.toNat ≤ 'Z'.toNat) ||
  ('0'.toNat ≤ c.toNat && c.toNat ≤ '9'.toNat)

/-- Model of net/url's shouldEscape in query-component mode: only unreserved
characters (alphanumerics and dash, underscore, dot, tilde) stay literal. -/
def shouldEscapeQuery (c : Char) : Bool :=
  !(isAlphaNumChar c || c == '-' || c == '_' || c == '.' || c == '~')

/-- Upper-case hexadecimal digit table of net/url. -/
def hexUpperDigit (n : Nat) : Char := "0123456789ABCDEF".data.getD n '0'

/-- Escape of one byte in query-component mode: space becomes `'+'`, other
escaped bytes become a percent triple. -/
def escapeChar (c : Char) : List Char :=
  if shouldEscapeQuery c then
    if c = ' ' then ['+']
    else ['%', hexUpperDigit (c.toNat / 16), hexUpperDigit (c.toNat % 16)]
  else [c]

/-- Model of `url.QueryEscape`, identifying bytes with characters. -/
def queryEscape (s : String) : String := String.mk (s.data.flatMap escapeChar)

/-- Numeric value of a hexadecimal digit character (net/url's unhex). -/
def hexCharVal (c : Char) : Option Nat :=
  if '0'.toNat ≤ c.toNat ∧ c.toNat ≤ '9'.toNat then some (c.toNat - '0'.toNat)
  else if 'a'.toNat ≤ c.toNat ∧ c.toNat ≤ 'f'.toNat then some (c.toNat - 'a'.toNat + 10)
  else if 'A'.toNat ≤ c.toNat ∧ c.toNat ≤ 'F'.toNat then some (c.toNat - 'A'.toNat + 10)
  else none

mutual

/-- Model of `url.QueryUnescape`: percent triples decode, `'+'` becomes space,
and a malformed percent escape is an error (`none`). -/
def unescapeChars : List Char → Option (List Char)
  | [] => some []
  | c :: rest =>
    if c = '%' then unescapePct rest
    else if c = '+' then (unescapeChars rest).map (fun r => ' ' :: r)
    else (unescapeChars rest).map (fun r => c :: r)

/-- Decoding of what follows a `'%'`: two valid hexadecimal digits, else an
error. -/
def unescapePct : List Char → Option (List Char)
  | h1 :: h2 :: rest2 =>
    match hexCharVal h1, hexCharVal h2 with
    | some v1, some v2 => (unescapeChars rest2).map (fun r => Char.ofNat (16 * v1 + v2) :: r)
    | _, _ => none
  | _ => none

end

theorem hexCharVal_hexUpperDigit (n : Nat) (h : n < 16) :
    hexCharVal (hexUpperDigit n) = some n := by
  interval_cases n <;> rfl

theorem hexUpperDigit_mem (n : Nat) : hexUpperDigit n ∈ "0123456789ABCDEF".data := by
  by_cases h : n < 16
  · interval_cases n <;> decide
  · have hlen : ("0123456789ABCDEF".data).length ≤ n := by
      have : ("0123456789ABCDEF".data).length = 16 := by decide
      omega
    rw [hexUpperDigit, List.getD_eq_default _ _ hlen]
    decide

theorem unescapeChars_escapeChar (c : Char) (rest : List Char) (hc : c.toNat < 256) :
    unescapeChars (escapeChar c ++ rest) = (unescapeChars rest).map (fun r => c :: r) := by
  by_cases hesc : shouldEscapeQuery c = true
  · by_cases hsp : c = ' '
    · subst hsp
      simp only [escapeChar, hesc, if_pos rfl, if_true, List.cons_append, List.nil_append]
      rw [unescapeChars, if_neg (by decide), if_pos rfl]
    · simp only [escapeChar, hesc, if_true, if_neg hsp, List.cons_append, List.nil_append]
      rw [unescapeChars, if_pos rfl, unescapePct,
        hexCharVal_hexUpperDigit (c.toNat / 16) (by omega),
        hexCharVal_hexUpperDigit (c.toNat % 16) (Nat.mod_lt _ (by omega))]
      have hn : 16 * (c.toNat / 16) + c.toNat % 16 = c.toNat := Nat.div_add_mod c.toNat 16
      simp only [hn, Char.ofNat_toNat]
  · have hpct : ¬ c = '%' := by
      intro hh; rw [hh] at hesc; exact hesc (by decide)
    have hplus : ¬ c = '+' := by
      intro hh; rw [hh] at hesc; exact hesc (by decide)
    simp only [escapeChar, hesc, Bool.false_eq_true, if_false, List.cons_append,
      List.nil_append]
    rw [unescapeChars, if_neg hpct, if_neg hplus]

theorem unescapeChars_flatMap (s : List Char) (h : ∀ c ∈ s, c.toNat < 256) :
    unescapeChars (s.flatMap escapeChar) = some s := by
  induction s with
  | nil => rfl
  | cons c cs ih =>
    rw [List.flatMap_cons, unescapeChars_escapeChar c _ (h c (by simp)),
      ih (fun d hd => h d (by simp [hd]))]
    rfl

theorem hexUpperDigit_ne_sep (n : Nat) :
    hexUpperDigit n ≠ '&' ∧ hexUpperDigit n ≠ '=' ∧ hexUpperDigit n ≠ ';' := by
  have hm := hexUpperDigit_mem n
  generalize hexUpperDigit n = d at hm ⊢
  fin_cases hm <;> exact ⟨by decide, by decide, by decide⟩

theorem escapeChar_sep_free (c : Char) :
    '&' ∉ escapeChar c ∧ '=' ∉ escapeChar c ∧ ';' ∉ escapeChar c := by
  by_cases hesc : shouldEscapeQuery c = true
  · by_cases hsp : c = ' '
    · subst hsp
      decide
    · have h1 := hexUpperDigit_ne_sep (c.toNat / 16)
      have h2 := hexUpperDigit_ne_sep (c.toNat % 16)
      simp only [escapeChar, hesc, if_true, if_neg hsp, List.mem_cons, List.not_mem_nil,
        or_false, not_or]
      exact ⟨⟨by decide, fun hh => h1.1 hh.symm, fun hh => h2.1 hh.symm⟩,
        ⟨by decide, fun hh => h1.2.1 hh.symm, fun hh => h2.2.1 hh.symm⟩,
        ⟨by decide, fun hh => h1.2.2 hh.symm, fun hh => h2.2.2 hh.symm⟩⟩
  · have h' : shouldEscapeQuery c = false := by simpa using hesc
    simp only [escapeChar, h', Bool.false_eq_true, if_false, List.mem_singleton]
    refine ⟨fun hh => ?_, fun hh => ?_, fun hh => ?_⟩ <;>
      · rw [← hh] at h'
        revert h'
        decide

theorem flatMap_escapeChar_sep_free (s : List Char) :
    '&' ∉ s.flatMap escapeChar ∧ '=' ∉ s.flatMap escapeChar ∧ ';' ∉ s.flatMap escapeChar := by
  refine ⟨fun hm => ?_, fun hm => ?_, fun hm => ?_⟩ <;>
    · obtain ⟨c, _, hc⟩ := List.mem_flatMap.mp hm
      have := escapeChar_sep_free c
      first
        | exact this.1 hc
        | exact this.2.1 hc
        | exact this.2.2 hc

/-- Byte-wise string order, the model of Go's `sort.Strings` comparison. -/
def charListLe : List Char → List Char → Bool
  | [], _ => true
  | _ :: _, [] => false
  | a :: as, b :: bs => if a = b then charListLe as bs else decide (a.toNat < b.toNat)

/-- Ordering of query pairs by key, used when encoding `url.Values`. -/
def pairKeyLe (a b : String × String) : Bool := charListLe a.1.data b.1.data

/-- Stable insertion of one element into a sorted list. -/
def insertLe {α : Type} (le : α → α → Bool) (x : α) : List α → List α
  | [] => [x]
  | y :: ys => if le y x then y :: insertLe le x ys else x :: y :: ys

/-- Stable insertion sort; on lists with pairwise-distinct keys it produces the
same order as Go's `sort.Strings` over the map keys. -/
def sortLe {α : Type} (le : α → α → Bool) : List α → List α
  | [] => []
  | x :: xs => insertLe le x (sortLe le xs)

theorem insertLe_perm {α : Type} (le : α → α → Bool) (x : α) (l : List α) :
    (insertLe le x l).Perm (x :: l) := by
  induction l with
  | nil => exact List.Perm.refl _
  | cons y ys ih =>
    simp only [insertLe]
    split
    · exact (ih.cons y).trans (List.Perm.swap x y ys)
    · exact List.Perm.refl _

theorem sortLe_perm {α : Type} (le : α → α → Bool) (l : List α) : (sortLe le l).Perm l := by
  induction l with
  | nil => exact List.Perm.refl _
  | cons x xs ih => exact (insertLe_perm le x (sortLe le xs)).trans (ih.cons x)

/-- Join of the encoded `key=value` segments with `'&'`, the shape produced by
`url.Values.Encode` (a separator before every segment but the first; every
segment is nonempty since it contains `'='`). -/
def joinAmp : List (List Char) → List Char
  | [] => []
  | [seg] => seg
  | seg :: segs => seg ++ '&' :: joinAmp segs

/-- Split on `'&'`, the segment structure walked by `url.ParseQuery` via
`strings.Cut(query, "&")`. -/
def splitOnAmp : List Char → List (List Char)
  | [] => [[]]
  | c :: rest =>
    if c = '&' then [] :: splitOnAmp rest
    else
      match splitOnAmp rest with
      | [] => [[c]]
      | seg :: segs => (c :: seg) :: segs

theorem splitOnAmp_no_amp (seg : List Char) (h : '&' ∉ seg) : splitOnAmp seg = [seg] := by
  induction seg with
  | nil => rfl
  | cons c cs ih =>
    have hc : ¬ c = '&' := fun hh => h (by simp [hh])
    rw [splitOnAmp, if_neg hc, ih (fun hm => h (by simp [hm]))]

theorem splitOnAmp_append_amp (seg t : List Char) (h : '&' ∉ seg) :
    splitOnAmp (seg ++ '&' :: t) = seg :: splitOnAmp t := by
  induction seg with
  | nil => simp [splitOnAmp]
  | cons c cs ih =>
    have hc : ¬ c = '&' := fun hh => h (by simp [hh])
    rw [List.cons_append, splitOnAmp, if_neg hc, ih (fun hm => h (by simp [hm]))]

theorem splitOnAmp_joinAmp (segs : List (List Char)) (hne : segs ≠ [])
    (hfree : ∀ seg ∈ segs, '&' ∉ seg) :
    splitOnAmp (joinAmp segs) = segs := by
  induction segs with
  | nil => exact absurd rfl hne
  | cons seg rest ih =>
    cases rest with
    | nil => exact splitOnAmp_no_amp seg (hfree seg (by simp))
    | cons seg2 rest2 =>
      have hj : joinAmp (seg :: seg2 :: rest2) = seg ++ '&' :: joinAmp (seg2 :: rest2) := rfl
      rw [hj, splitOnAmp_append_amp seg _ (hfree seg (by simp)),
        ih (by simp) (fun s hs => hfree s (List.mem_cons_of_mem seg hs))]

/-- Model of `strings.Cut(s, "=")`: the parts before and after the first
`'='`; when there is none, the whole string and the empty remainder. -/
def cutEq : List Char → List Char × List Char
  | [] => ([], [])
  | c :: rest =>
    if c = '=' then ([], rest)
    else
      let r := cutEq rest
      (c :: r.1, r.2)

theorem cutEq_append (ek ev : List Char) (hk : '=' ∉ ek) :
    cutEq (ek ++ '=' :: ev) = (ek, ev) := by
  induction ek with
  | nil => simp [cutEq]
  | cons c cs ih =>
    have hc : ¬ c = '=' := fun hh => hk (by simp [hh])
    rw [List.cons_append, cutEq, if_neg hc, ih (fun hm => hk (by simp [hm]))]

/-- Handling of one `key=value` segment by `url.ParseQuery`: a segment holding
`';'` is an error and is dropped, the segment is cut at the first `'='`, and
both halves are query-unescaped (a failed unescape drops the pair). -/
def parsePair (seg : List Char) : Option (String × String) :=
  if ';' ∈ seg then none
  else
    let kv := cutEq seg
    match unescapeChars kv.1, unescapeChars kv.2 with
    | some k, some v => some (String.mk k, String.mk v)
    | _, _ => none

/-- Model of `url.ParseQuery`: split on `'&'`, skip empty segments, parse each
remaining segment; pairs are collected in query order. -/
def parseQuery (s : String) : List (String × String) :=
  ((splitOnAmp s.data).filter (fun seg => !seg.isEmpty)).filterMap parsePair

/-- Encoded form of one query pair: escaped key, `'='`, escaped value. -/
def encPair (p : String × String) : List Char :=
  p.1.data.flatMap escapeChar ++ '=' :: p.2.data.flatMap escapeChar

/-- Model of `url.Values.Encode` for values built by successive `Add` calls:
pairs are sorted by key (stably, so values of equal keys keep insertion order,
matching the per-key value slices of `url.Values`) and joined with `'&'`. -/
def valuesEncode (pairs : List (String × String)) : String :=
  String.mk (joinAmp ((sortLe pairKeyLe pairs).map encPair))

/-- Byte bound making the character-level model of escaping exact. -/
def ByteBounded (pairs : List (String × String)) : Prop :=
  ∀ p ∈ pairs, (∀ c ∈ p.1.data, c.toNat < 256) ∧ (∀ c ∈ p.2.data, c.toNat < 256)

instance : DecidablePred ByteBounded := fun pairs => by
  unfold ByteBounded
  infer_instance

theorem parsePair_encPair (p : String × String) (hk : ∀ c ∈ p.1.data, c.toNat < 256)
    (hv : ∀ c ∈ p.2.data, c.toNat < 256) : parsePair (encPair p) = some p := by
  have hksep := flatMap_escapeChar_sep_free p.1.data
  have hvsep := flatMap_escapeChar_sep_free p.2.data
  have hsemi : ';' ∉ encPair p := by
    intro hm
    rcases List.mem_append.mp hm with hm | hm
    · exact hksep.2.2 hm
    · rcases List.mem_cons.mp hm with hm | hm
      · exact absurd hm (by decide)
      · exact hvsep.2.2 hm
  rw [parsePair, if_neg hsemi]
  show (match (cutEq (encPair p)).1, (cutEq (encPair p)).2 with
    | _, _ => _ : Option (String × String)) = _
  rw [encPair, cutEq_append _ _ hksep.2.1]
  simp only [unescapeChars_flatMap p.1.data hk, unescapeChars_flatMap p.2.data hv]

theorem filterMap_parsePair (l : List (String × String)) (h : ByteBounded l) :
    ((l.map encPair).filter (fun seg => !seg.isEmpty)).filterMap parsePair = l := by
  induction l with
  | nil => rfl
  | cons p rest ih =>
    have hp := h p (by simp)
    have hne : (encPair p).isEmpty = false := by
      rw [encPair]
      cases hk : p.1.data.flatMap escapeChar <;> rfl
    rw [List.map_cons, List.filter_cons]
    simp only [hne, Bool.not_false, if_true]
    rw [List.filterMap_cons, parsePair_encPair p hp.1 hp.2,
      ih (fun q hq => h q (List.mem_cons_of_mem p hq))]

theorem parseQuery_valuesEncode (pairs : List (String × String)) (h : ByteBounded pairs) :
    parseQuery (valuesEncode pairs) = sortLe pairKeyLe pairs := by
  have hsorted : ByteBounded (sortLe pairKeyLe pairs) :=
    fun p hp => h p ((sortLe_perm pairKeyLe pairs).mem_iff.mp hp)
  cases hs : sortLe pairKeyLe pairs with
  | nil => rw [parseQuery, valuesEncode, hs]; rfl
  | cons p rest =>
    rw [valuesEncode, hs, parseQuery]
    have hdata : (String.mk (joinAmp ((p :: rest).map encPair))).data
        = joinAmp ((p :: rest).map encPair) := rfl
    rw [hdata, splitOnAmp_joinAmp _ (by simp)]
    · rw [hs] at hsorted
      exact filterMap_parsePair _ hsorted
    · intro seg hseg
      obtain ⟨q, _, hq⟩ := List.mem_map.mp hseg
      rw [← hq]
      intro hm
      have hqsep1 := flatMap_escapeChar_sep_free q.1.data
      have hqsep2 := flatMap_escapeChar_sep_free q.2.data
      rcases List.mem_append.mp hm with hm | hm
      · exact hqsep1.1 hm
      · rcases List.mem_cons.mp hm with hm | hm
        · exact absurd hm (by decide)
        · exact hqsep2.1 hm

/-- Round trip of the query-string codec: parsing an encoded value list yields
the same multiset of key/value pairs. -/
theorem parseQuery_valuesEncode_perm (pairs : List (String × String)) (h : ByteBounded pairs) :
    (parseQuery (valuesEncode pairs)).Perm pairs := by
  rw [parseQuery_valuesEncode pairs h]
  exact sortLe_perm pairKeyLe pairs

/-- Lower-case hexadecimal digit table of encoding/json. -/
def hexLowerDigit (n : Nat) : Char := "0123456789abcdef".data.getD n '0'

/-- Escape of one character inside a JSON string, matching encoding/json's
default HTML-escaping encoder on single-byte characters. -/
def jsonEscapeChar (c : Char) : List Char :=
  if c = '"' then ['\\', '"']
  else if c = '\\' then ['\\', '\\']
  else if c = '\n' then ['\\', 'n']
  else if c = '\r' then ['\\', 'r']
  else if c = '\t' then ['\\', 't']
  else if c = '<' then "\\u003c".data
  else if c = '>' then "\\u003e".data
  else if c = '&' then "\\u0026".data
  else if c.toNat < 32 then
    ['\\', 'u', '0', '0', hexLowerDigit (c.toNat / 16), hexLowerDigit (c.toNat % 16)]
  else [c]

/-- Key order used when `encoding/json` marshals a map. -/
def fmapKeyLe (a b : String × JVal) : Bool := charListLe a.1.data b.1.data

/-- Byte-wise key sort applied by `encoding/json` to maps. -/
def sortFMap (m : FMap) : FMap := sortLe fmapKeyLe m

mutual

/-- Compact JSON rendering, the model of `json.Marshal` output text. Object
members keep the order of the association list (struct fields keep declaration
order; maps are sorted at construction via `sortFMap`). -/
def JVal.serialize : JVal → List Char
  | .null => "null".data
  | .bool true => "true".data
  | .bool false => "false".data
  | .num m e => if e = 0 then (toString m).data else (GoFloat.format ⟨m, e⟩).data
  | .str s => '"' :: s.data.flatMap jsonEscapeChar ++ ['"']
  | .arr xs => '[' :: JVal.serializeItems xs ++ [']']
  | .obj kvs => '\x7b' :: JVal.serializeMembers kvs ++ ['\x7d']

/-- Comma-separated renderings of array items. -/
def JVal.serializeItems : List JVal → List Char
  | [] => []
  | [x] => JVal.serialize x
  | x :: rest => JVal.serialize x ++ ',' :: JVal.serializeItems rest

/-- Comma-separated renderings of object members. -/
def JVal.serializeMembers : List (String × JVal) → List Char
  | [] => []
  | [kv] => JVal.serializeMember kv
  | kv :: rest => JVal.serializeMember kv ++ ',' :: JVal.serializeMembers rest

/-- Rendering of a single `"key":value` object member. -/
def JVal.serializeMember : String × JVal → List Char
  | (k, v) => '"' :: k.data.flatMap jsonEscapeChar ++ '"' :: ':' :: JVal.serialize v

end

/-- Model of `types.APIVersion`, a string type. -/
abbrev APIVersion := String

/-- Model of `types.V1`. -/
def V1 : APIVersion := "v1"

/-- Model of `types.V2`. -/
def V2 : APIVersion := "v2"

/-- Model of `types.DefaultAPIVersion = V2`. -/
def DefaultAPIVersion : APIVersion := V2

/-- Model of `APIVersion.IsDefault`: the default version or the empty string. -/
def APIVersion.IsDefault (v : APIVersion) : Bool := v == DefaultAPIVersion || v == ""

/-- Model of `types.Message`. -/
structure Message where
  Role : String
  Content : String
deriving DecidableEq, Repr

/-- Model of `types.CustomCategory`. -/
structure CustomCategory where
  CategoryName : String
  CategoryDescription : String
deriving DecidableEq, Repr

/-- Model of `types.CustomCategories`. -/
abbrev CustomCategories := List CustomCategory

/-- Model of `types.SearchWildcard`. -/
def SearchWildcard : String := "*"

/-- Model of `types.MemoryOptions`; field order and json wire names follow the
source. Go `map[string]any` fields are `Option FMap` (`none` is the nil map);
slice fields are lists, identifying a nil slice with an empty one (the two
behave identically in every code path this model covers). Field defaults give
the Go zero value. -/
structure MemoryOptions where
  APIVersion : Mem0.APIVersion := ""
  Version : Mem0.APIVersion := ""
  UserID : String := ""
  AgentID : String := ""
  AppID : String := ""
  RunID : String := ""
  Timestamp : Int := 0
  Metadata : Option FMap := none
  Filters : Option FMap := none
  OrgID : String := ""
  ProjectID : String := ""
  Infer : Bool := false
  Page : Int := 0
  PageSize : Int := 0
  Includes : String := ""
  Excludes : String := ""
  EnableGraph : Bool := false
  StartDate : String := ""
  EndDate : String := ""
  CustomCategories : Mem0.CustomCategories := []
  CustomInstructions : String := ""
  Messages : List Message := []

/-- Model of `types.SearchOptions`; `memoryOptions` is Go's embedded
`MemoryOptions` field. -/
structure SearchOptions where
  memoryOptions : MemoryOptions := {}
  EnableGraph : Bool := false
  Threshold : GoFloat := {}
  TopK : Int := 0
  OnlyMetadataBasedSearch : Bool := false
  KeywordSearch : Bool := false
  Fields : List String := []
  Categories : List String := []
  Rerank : Bool := false
  Version : Mem0.APIVersion := ""

/-- Model of `types.ProjectOptions`. -/
structure ProjectOptions where
  Fields : List String := []

/-- Entry defaulting used by the normalizer, one Go block
`if _, ok := filters[k]; !ok { filters[k] = v }`. -/
def FMap.setIfAbsent (m : FMap) (key : String) (v : JVal) : FMap :=
  if (m.get key).isSome then m else m.set key v

/-- Model of `fixAPIV2Filters`: a nil map becomes empty, `agent_id` is
deleted, and `user_id`, `app_id`, `run_id` default to the wildcard when
absent. -/
def fixAPIV2Filters (filters : Option FMap) : FMap :=
  ((((filters.getD []).erase "agent_id").setIfAbsent "user_id"
    (.str SearchWildcard)).setIfAbsent "app_id"
    (.str SearchWildcard)).setIfAbsent "run_id" (.str SearchWildcard)

/-- Dynamic view of one struct field as walked by reflection. -/
inductive GoVal where
  | str (s : String)
  | int (n : Int)
  | float (f : GoFloat)
  | bool (b : Bool)
  | strList (xs : List String)
  | msgList (xs : List Message)
  | catList (xs : List CustomCategory)
  | jmap (m : Option FMap)
  | opts (o : MemoryOptions)

/-- Zero-value test of a whole `MemoryOptions`, used by `reflect.Value.IsZero`
on the embedded struct field. -/
def MemoryOptions.isZeroOpts (o : MemoryOptions) : Bool :=
  o.APIVersion == "" && o.Version == "" && o.UserID == "" && o.AgentID == "" &&
  o.AppID == "" && o.RunID == "" && o.Timestamp == 0 && o.Metadata.isNone &&
  o.Filters.isNone && o.OrgID == "" && o.ProjectID == "" && o.Infer == false &&
  o.Page == 0 && o.PageSize == 0 && o.Includes == "" && o.Excludes == "" &&
  o.EnableGraph == false && o.StartDate == "" && o.EndDate == "" &&
  o.CustomCategories.isEmpty && o.CustomInstructions == "" && o.Messages.isEmpty

/-- Model of `reflect.Value.IsZero` on the occurring field kinds. For slices
the model folds the `IsZero` skip (nil) and the explicit `Len() == 0` skip of
`structToQuery` into one emptiness test, since nil and empty slices are
identified. -/
def GoVal.isZero : GoVal → Bool
  | .str s => s == ""
  | .int n => n == 0
  | .float f => f.isZero
  | .bool b => b == false
  | .strList xs => xs.isEmpty
  | .msgList xs => xs.isEmpty
  | .catList xs => xs.isEmpty
  | .jmap m => m.isNone
  | .opts o => o.isZeroOpts

/-- Model of encoding/json's `omitempty` emptiness test. It differs from
`reflect.Value.IsZero` only on maps (an empty non-nil map is `omitempty`-empty
but not `IsZero`) and on structs (never `omitempty`-empty). -/
def GoVal.isZeroJson : GoVal → Bool
  | .str s => s == ""
  | .int n => n == 0
  | .float f => f.isZero
  | .bool b => b == false
  | .strList xs => xs.isEmpty
  | .msgList xs => xs.isEmpty
  | .catList xs => xs.isEmpty
  | .jmap m => (m.getD []).isEmpty
  | .opts _ => false

/-- JSON encoding of one field value, the model of `json.Marshal` per kind.
Map keys are sorted as `encoding/json` does (nested maps are carried as given;
claims about nested values go through `FMap.get`). `CustomCategories` uses its
custom marshaller: an array of single-member objects. The `opts` constructor
never occurs in a body field list (Go inlines embedded struct fields), so its
branch is the JSON null placeholder. -/
def GoVal.toJVal : GoVal → JVal
  | .str s => .str s
  | .int n => .num n 0
  | .float f => .num f.mantissa f.exp
  | .bool b => .bool b
  | .strList xs => .arr (xs.map JVal.str)
  | .msgList xs => .arr (xs.map (fun m => .obj [("role", .str m.Role), ("content", .str m.Content)]))
  | .catList xs => .arr (xs.map (fun cat => .obj [(cat.CategoryName, .str cat.CategoryDescription)]))
  | .jmap m => .obj (sortFMap (m.getD []))
  | .opts _ => .null

/-- Marshalling decision of `omitempty` for one field: an empty field produces
no member, the others are keyed by their wire name. -/
def marshalEmit (kv : String × GoVal) : Option (String × JVal) :=
  if kv.2.isZeroJson then none else some (kv.1, kv.2.toJVal)

/-- Marshalled map of a field list under `omitempty`. -/
def marshalFields (fields : List (String × GoVal)) : FMap :=
  fields.filterMap marshalEmit

/-- Wire-level field list of `MemoryOptions`: json tag names (without options)
paired with the field values, in declaration order. -/
def MemoryOptions.bodyFields (o : MemoryOptions) : List (String × GoVal) :=
  [("api_version", .str o.APIVersion),
   ("version", .str o.Version),
   ("user_id", .str o.UserID),
   ("agent_id", .str o.AgentID),
   ("app_id", .str o.AppID),
   ("run_id", .str o.RunID),
   ("timestamp", .int o.Timestamp),
   ("metadata", .jmap o.Metadata),
   ("filters", .jmap o.Filters),
   ("org_id", .str o.OrgID),
   ("project_id", .str o.ProjectID),
   ("infer", .bool o.Infer),
   ("page", .int o.Page),
   ("page_size", .int o.PageSize),
   ("includes", .str o.Includes),
   ("excludes", .str o.Excludes),
   ("enable_graph", .bool o.EnableGraph),
   ("start_date", .str o.StartDate),
   ("end_date", .str o.EndDate),
   ("custom_categories", .catList o.CustomCategories),
   ("custom_instructions", .str o.CustomInstructions),
   ("messages", .msgList o.Messages)]

/-- Model of `json.Marshal` of a `MemoryOptions` followed by `json.Unmarshal`
into a `map[string]interface{}`: every field carries `omitempty`. -/
def MemoryOptions.toJsonMap (o : MemoryOptions) : FMap := marshalFields o.bodyFields

/-- Wire-level field list of `SearchOptions`: the embedded `MemoryOptions` is
inlined first, minus the json names `enable_graph` and `version`, which are
also declared on `SearchOptions` itself and win under Go's shallower-depth
conflict rule; then the own fields in declaration order. -/
def SearchOptions.bodyFields (o : SearchOptions) : List (String × GoVal) :=
  (o.memoryOptions.bodyFields.filter
    (fun kv => kv.1 != "enable_graph" && kv.1 != "version")) ++
  [("enable_graph", .bool o.EnableGraph),
   ("threshold", .float o.Threshold),
   ("top_k", .int o.TopK),
   ("only_metadata_based_search", .bool o.OnlyMetadataBasedSearch),
   ("keyword_search", .bool o.KeywordSearch),
   ("fields", .strList o.Fields),
   ("categories", .strList o.Categories),
   ("rerank", .bool o.Rerank),
   ("version", .str o.Version)]

/-- Model of `json.Marshal` of a `SearchOptions` into a map. -/
def SearchOptions.toJsonMap (o : SearchOptions) : FMap := marshalFields o.bodyFields

/-- Comma join of slice elements, `strings.Join(items, ",")`. -/
def joinComma : List String → String
  | [] => ""
  | [x] => x
  | x :: rest => x ++ "," ++ joinComma rest

/-- Model of the per-kind `strValue` conversion in `structToQuery`; `none`
stands for the `continue` cases (empty slice or map). Slice elements of struct
kind match no case in the element switch, so a nonempty struct slice joins
zero items and yields the empty string. The struct branch (reachable only for
the embedded options field, which the tag check always skips anyway) marshals
the struct to JSON. -/
def GoVal.render : GoVal → Option String
  | .str s => some s
  | .int n => some (toString n)
  | .float f => some f.format
  | .bool b => some (if b then "true" else "false")
  | .strList xs => if xs.isEmpty then none else some (joinComma xs)
  | .msgList xs => if xs.isEmpty then none else some ""
  | .catList xs => if xs.isEmpty then none else some ""
  | .jmap m =>
    if (m.getD []).isEmpty then none
    else some (String.mk (JVal.serialize (.obj (sortFMap (m.getD [])))))
  | .opts o => some (String.mk (JVal.serialize (.obj (marshalFields o.bodyFields))))

/-- Emission decision of `structToQuery` for one field: zero fields are
skipped first, then fields whose tag is `""` or `"-"`, then the per-kind
conversion runs; the tag string returned by `Tag.Get("json")` is used verbatim
as the parameter name. -/
def queryEmit (kv : String × GoVal) : Option (String × String) :=
  if kv.2.isZero then none
  else if kv.1 == "" || kv.1 == "-" then none
  else (kv.2.render).map (fun s => (kv.1, s))

/-- Emitted (parameter name, string value) pairs of `structToQuery`. -/
def queryPairs (fields : List (String × GoVal)) : List (String × String) :=
  fields.filterMap queryEmit

/-- Model of `structToQuery`: emit the pairs into `url.Values` and encode. -/
def structToQuery (fields : List (String × GoVal)) : String :=
  valuesEncode (queryPairs fields)

/-- Reflection view of `MemoryOptions` for `structToQuery`: each tag is the
full `json` tag text as returned by `Tag.Get("json")`, options included. -/
def MemoryOptions.queryFields (o : MemoryOptions) : List (String × GoVal) :=
  [("api_version,omitempty", .str o.APIVersion),
   ("version,omitempty", .str o.Version),
   ("user_id,omitempty", .str o.UserID),
   ("agent_id,omitempty", .str o.AgentID),
   ("app_id,omitempty", .str o.AppID),
   ("run_id,omitempty", .str o.RunID),
   ("timestamp,omitempty", .int o.Timestamp),
   ("metadata,omitempty", .jmap o.Metadata),
   ("filters,omitempty", .jmap o.Filters),
   ("org_id,omitempty", .str o.OrgID),
   ("project_id,omitempty", .str o.ProjectID),
   ("infer,omitempty", .bool o.Infer),
   ("page,omitempty", .int o.Page),
   ("page_size,omitempty", .int o.PageSize),
   ("includes,omitempty", .str o.Includes),
   ("excludes,omitempty", .str o.Excludes),
   ("enable_graph,omitempty", .bool o.EnableGraph),
   ("start_date,omitempty", .str o.StartDate),
   ("end_date,omitempty", .str o.EndDate),
   ("custom_categories,omitempty", .catList o.CustomCategories),
   ("custom_instructions,omitempty", .str o.CustomInstructions),
   ("messages,omitempty", .msgList o.Messages)]

/-- Reflection view of `SearchOptions` for `structToQuery`: the embedded
`MemoryOptions` field comes first and carries no json tag. -/
def SearchOptions.queryFields (o : SearchOptions) : List (String × GoVal) :=
  ("", .opts o.memoryOptions) ::
  [("enable_graph,omitempty", .bool o.EnableGraph),
   ("threshold,omitempty", .float o.Threshold),
   ("top_k,omitempty", .int o.TopK),
   ("only_metadata_based_search,omitempty", .bool o.OnlyMetadataBasedSearch),
   ("keyword_search,omitempty", .bool o.KeywordSearch),
   ("fields,omitempty", .strList o.Fields),
   ("categories,omitempty", .strList o.Categories),
   ("rerank,omitempty", .bool o.Rerank),
   ("version,omitempty", .str o.Version)]

/-- Reflection view of `ProjectOptions` for `structToQuery`. -/
def ProjectOptions.queryFields (o : ProjectOptions) : List (String × GoVal) :=
  [("fields,omitempty", .strList o.Fields)]

/-- Model of `MemoryOptions.ToQuery`. -/
def MemoryOptions.ToQuery (o : MemoryOptions) : String := structToQuery o.queryFields

/-- Model of `SearchOptions.ToQuery`. -/
def SearchOptions.ToQuery (o : SearchOptions) : String := structToQuery o.queryFields

/-- Model of `ProjectOptions.ToQuery`. -/
def ProjectOptions.ToQuery (o : ProjectOptions) : String := structToQuery o.queryFields

/-- Model of `client.ClientOptions`. -/
structure ClientOptions where
  APIKey : String := ""
  Host : String := ""
  OrganizationName : String := ""
  ProjectName : String := ""
  OrganizationID : String := ""
  ProjectID : String := ""

/-- Configuration fields of `client.MemoryClient` read by the modelled
operations. -/
structure MemoryClient where
  apiKey : String := ""
  host : String := ""
  organizationName : String := ""
  projectName : String := ""
  organizationID : String := ""
  projectID : String := ""
  telemetryID : String := ""

/-- Model of `validateOrgProject`: each identification pair must be fully
specified or fully omitted. -/
def validateOrgProject (c : MemoryClient) : Option String :=
  if (c.organizationName = "" ∧ c.projectName ≠ "") ∨
      (c.organizationName ≠ "" ∧ c.projectName = "") then
    some "both organizationName and projectName must be provided together"
  else if (c.organizationID = "" ∧ c.projectID ≠ "") ∨
      (c.organizationID ≠ "" ∧ c.projectID = "") then
    some "both organizationID and projectID must be provided together"
  else none

/-- Outcome of the construction-time liveness ping, abstracting the network
round trip and its response handling: a failure (transport error, non-200
status, undecodable body, or a status field other than "ok") or the data a
successful reply supplies. -/
inductive PingOutcome where
  | fail (e : String)
  | ok (orgID : String) (projectID : String) (userEmail : String)

/-- Client value assembled by `NewMemoryClient` before validation, with the
default host filled in. -/
def buildClient (options : ClientOptions) : MemoryClient :=
  { apiKey := options.APIKey,
    host := if options.Host = "" then "https://api.mem0.ai" else options.Host,
    organizationName := options.OrganizationName, projectName := options.ProjectName,
    organizationID := options.OrganizationID, projectID := options.ProjectID }

/-- Model of `NewMemoryClient`. The ping outcome is a parameter; the boolean
records whether construction reached the ping, its only network call. -/
def NewMemoryClient (options : ClientOptions) (ping : PingOutcome) :
    Except String MemoryClient × Bool :=
  if options.APIKey = "" then (.error "API key is required", false)
  else
    match validateOrgProject (buildClient options) with
    | some e => (.error e, false)
    | none =>
      match ping with
      | .fail e => (.error e, true)
      | .ok orgID projectID userEmail =>
        (.ok { buildClient options with organizationID := orgID, projectID := projectID,
                                        telemetryID := userEmail }, true)

/-- Dynamic type of the `messages interface{}` argument of `Add` / `AddAsync`
/ `preparePayload`: one of the four accepted shapes, or any other dynamic
type. -/
inductive Messages where
  | str (s : String)
  | strList (xs : List String)
  | msg (m : Message)
  | msgList (xs : List Message)
  | other

/-- JSON encoding of the `[]types.Message` value stored under `"messages"`. -/
def messagesToJVal (xs : List Message) : JVal := (GoVal.msgList xs).toJVal

/-- Adjustment `preparePayload` makes to the options before marshalling: when
both client organization/project ids are set they overwrite the corresponding
option fields. (The source also assigns `options.OrgName` and
`options.ProjectName` from the client's name pair, but `types.MemoryOptions`
declares no such fields, so the assignment has no target in the marshalled
map.) -/
def adjustOptions (c : MemoryClient) (options : MemoryOptions) : MemoryOptions :=
  if c.organizationID ≠ "" ∧ c.projectID ≠ "" then
    { options with OrgID := c.organizationID, ProjectID := c.projectID }
  else options

/-- Continuation of `preparePayload` after the message-shape switch: option
adjustment, marshalling into a map, merge into the payload, presence check of
`messages`, default-version fallback. -/
def preparePayloadRest (c : MemoryClient) (msgs : List Message) (options : MemoryOptions) :
    Except String FMap :=
  let options := adjustOptions c options
  let payload : FMap := [("messages", messagesToJVal msgs)]
  let payload := payload.mergeFrom options.toJsonMap
  if (payload.get "messages").isNone then .error "messages field is required"
  else if APIVersion.IsDefault options.Version then
    .ok (payload.set "version" (.str DefaultAPIVersion))
  else .ok payload

/-- Model of `preparePayload`: a bare string becomes one user message, a
string slice becomes user messages, a `Message` or `[]Message` is taken as is,
and any other dynamic type is an error. -/
def preparePayload (c : MemoryClient) (messages : Messages) (options : MemoryOptions) :
    Except String FMap :=
  match messages with
  | .str s => preparePayloadRest c [⟨"user", s⟩] options
  | .strList xs => preparePayloadRest c (xs.map (fun m => ⟨"user", m⟩)) options
  | .msg m => preparePayloadRest c [m] options
  | .msgList xs => preparePayloadRest c xs options
  | .other => .error "invalid messages type"

/-- Adjustment `Search` makes to the caller's options: the client id pair
overwrites the embedded org/project id fields (the name-pair assignment has no
modelled target, as for `preparePayload`). -/
def adjustSearchOptions (c : MemoryClient) (options : SearchOptions) : SearchOptions :=
  if c.organizationID ≠ "" ∧ c.projectID ≠ "" then
    { options with memoryOptions :=
        { options.memoryOptions with OrgID := c.organizationID, ProjectID := c.projectID } }
  else options

/-- Normalization step of `Search`: when the merged payload carries a
`filters` member and the version is default, the filters are replaced by their
normalized form and `filter_memories` is forced. (The source casts the member
to `map[string]any`; marshalled filters are always a JSON object, so the
non-object arm is unreachable.) -/
def searchNormalizeFilters (version : Mem0.APIVersion) (payload : FMap) : FMap :=
  match payload.get "filters" with
  | some (.obj kvs) =>
    if APIVersion.IsDefault version then
      (payload.set "filters" (.obj (fixAPIV2Filters (some kvs)))).set
        "filter_memories" (.bool true)
    else payload
  | _ => payload

/-- Model of the payload assembly of `Search`: a nil options pointer becomes
the zero options, the marshalled options are merged over the query, and the
filters member is normalized under the default version. -/
def Search.payload (c : MemoryClient) (query : String) (options : Option SearchOptions) :
    FMap :=
  let opts := adjustSearchOptions c (options.getD {})
  let payload : FMap := [("query", .str query)]
  searchNormalizeFilters opts.Version (payload.mergeFrom opts.toJsonMap)

/-- Model of the request struct assembled by `GetAll`. -/
structure GetAllRequest where
  Page : Int := 0
  PageSize : Int := 0
  OrgID : String := ""
  ProjectID : String := ""
  Fields : List String := []
  Filters : Option FMap := none

/-- Model of the request assembly of `GetAll`: for a nil options pointer the
zero request is sent; otherwise the options are copied, empty org/project ids
are filled from the client, a nil filters map becomes empty, and under the
default version the filters are normalized. -/
def GetAll.request (c : MemoryClient) (options : Option SearchOptions) : GetAllRequest :=
  match options with
  | none => {}
  | some o =>
    let req : GetAllRequest :=
      { Page := o.memoryOptions.Page, PageSize := o.memoryOptions.PageSize,
        Fields := o.Fields, Filters := o.memoryOptions.Filters,
        OrgID := o.memoryOptions.OrgID, ProjectID := o.memoryOptions.ProjectID }
    let req := if req.OrgID = "" then { req with OrgID := c.organizationID } else req
    let req := if req.ProjectID = "" then { req with ProjectID := c.projectID } else req
    let req := if req.Filters.isNone then { req with Filters := some [] } else req
    if APIVersion.IsDefault o.Version then
      { req with Filters := some (fixAPIV2Filters req.Filters) }
    else req

/-- First effect of an operation: an error returned before any HTTP activity,
or the HTTP request it issues. -/
inductive FirstStep where
  | localError (msg : String)
  | httpRequest (method : String) (path : String)

/-- First effect of `Get`: the request is issued directly, with the identifier
interpolated into the path and no preceding validation. -/
def Get.step (memoryID : String) : FirstStep :=
  .httpRequest "GET" ("/v1/memories/" ++ memoryID ++ "/")

/-- First effect of `Update`: the request is issued directly. -/
def Update.step (memoryID : String) : FirstStep :=
  .httpRequest "PUT" ("/v1/memories/" ++ memoryID ++ "/")

/-- First effect of `Delete`: the request is issued directly. -/
def Delete.step (memoryID : String) : FirstStep :=
  .httpRequest "DELETE" ("/v1/memories/" ++ memoryID ++ "/")

/-- First effect of `DeleteUser`: the request is issued directly. -/
def DeleteUser.step (entityID : String) : FirstStep :=
  .httpRequest "DELETE" ("/v1/users/" ++ entityID ++ "/")

/-- First effect of `DeleteWebhook`: the request is issued directly. -/
def DeleteWebhook.step (webhookID : String) : FirstStep :=
  .httpRequest "DELETE" ("/v1/webhooks/" ++ webhookID ++ "/")

/-- First effect of `GetEvent`: the request is issued directly. -/
def GetEvent.step (eventID : String) : FirstStep :=
  .httpRequest "GET" ("/v1/event/" ++ eventID ++ "/")

/-- Model of `client.APIError`. -/
structure APIError where
  Message : String

/-- Error message shared by every non-200 handler:
`fmt.Sprintf("API request failed with status %d: %s", resp.StatusCode, string(body))`. -/
def apiErrorMessage (status : Nat) (body : String) : String :=
  "API request failed with status " ++ toString status ++ ": " ++ body

/-- Response handling of `Add` (the shape shared by every operation): any
status other than 200 produces an `APIError` carrying the status and the raw
body; a 200 body is handed on to the JSON decoding stage. -/
def Add.handleResponse (status : Nat) (body : String) : Except APIError String :=
  if status ≠ 200 then .error ⟨apiErrorMessage status body⟩ else .ok body

/-- Containment of `sub` in `s` as a verbatim contiguous substring. -/
def ContainsSub (s sub : String) : Prop := ∃ pre post : String, s = pre ++ sub ++ post

theorem FMap.get_setIfAbsent_same (m : FMap) (key : String) (v : JVal) :
    (m.setIfAbsent key v).get key = some ((m.get key).getD v) := by
  rw [FMap.setIfAbsent]
  by_cases h : (m.get key).isSome
  · rw [if_pos h]
    obtain ⟨w, hw⟩ := Option.isSome_iff_exists.mp h
    rw [hw]
    rfl
  · rw [if_neg h, FMap.get_set, if_pos rfl, Option.not_isSome_iff_eq_none.mp h]
    rfl

theorem FMap.get_setIfAbsent_other (m : FMap) (key k : String) (v : JVal) (h : k ≠ key) :
    (m.setIfAbsent key v).get k = m.get k := by
  rw [FMap.setIfAbsent]
  by_cases hs : (m.get key).isSome
  · rw [if_pos hs]
  · rw [if_neg hs, FMap.get_set, if_neg h]

theorem fixAPIV2Filters_get (filters : Option FMap) (k : String) :
    (fixAPIV2Filters filters).get k =
      if k = "agent_id" then none
      else if k = "user_id" ∨ k = "app_id" ∨ k = "run_id" then
        some (((filters.getD []).get k).getD (.str SearchWildcard))
      else (filters.getD []).get k := by
  by_cases h1 : k = "agent_id"
  · subst h1
    rw [fixAPIV2Filters, FMap.get_setIfAbsent_other _ _ _ _ (by decide),
      FMap.get_setIfAbsent_other _ _ _ _ (by decide),
      FMap.get_setIfAbsent_other _ _ _ _ (by decide), FMap.get_erase]
    simp
  · by_cases h2 : k = "user_id"
    · subst h2
      rw [fixAPIV2Filters, FMap.get_setIfAbsent_other _ _ _ _ (by decide),
        FMap.get_setIfAbsent_other _ _ _ _ (by decide),
        FMap.get_setIfAbsent_same, FMap.get_erase]
      simp
    · by_cases h3 : k = "app_id"
      · subst h3
        rw [fixAPIV2Filters, FMap.get_setIfAbsent_other _ _ _ _ (by decide),
          FMap.get_setIfAbsent_same, FMap.get_setIfAbsent_other _ _ _ _ (by decide),
          FMap.get_erase]
        simp
      · by_cases h4 : k = "run_id"
        · subst h4
          rw [fixAPIV2Filters, FMap.get_setIfAbsent_same,
            FMap.get_setIfAbsent_other _ _ _ _ (by decide),
            FMap.get_setIfAbsent_other _ _ _ _ (by decide), FMap.get_erase]
          simp
        · rw [fixAPIV2Filters, FMap.get_setIfAbsent_other _ _ _ _ h4,
            FMap.get_setIfAbsent_other _ _ _ _ h3, FMap.get_setIfAbsent_other _ _ _ _ h2,
            FMap.get_erase]
          simp [h1, h2, h3, h4]

theorem FMap.get_eq_none_iff (m : FMap) (k : String) :
    m.get k = none ↔ k ∉ m.map Prod.fst := by
  induction m with
  | nil => simp [FMap.get]
  | cons kv rest ih =>
    rw [FMap.get, List.map_cons]
    by_cases h : kv.1 = k
    · simp [h]
    · rw [if_neg h, ih]
      simp only [List.mem_cons, not_or]
      constructor
      · intro hn
        exact ⟨fun hh => h hh.symm, hn⟩
      · intro hn
        exact hn.2

theorem FMap.mem_of_get_eq_some (m : FMap) (k : String) (v : JVal) (h : m.get k = some v) :
    (k, v) ∈ m := by
  induction m with
  | nil => simp [FMap.get] at h
  | cons kv rest ih =>
    rw [FMap.get] at h
    by_cases hk : kv.1 = k
    · rw [if_pos hk] at h
      have hv : kv.2 = v := Option.some_inj.mp h
      rw [← hk, ← hv]
      exact List.mem_cons_self _ _
    · rw [if_neg hk] at h
      exact List.mem_cons_of_mem kv (ih h)

theorem FMap.get_eq_some_of_mem (m : FMap) (hnd : (m.map Prod.fst).Nodup) (k : String)
    (v : JVal) (h : (k, v) ∈ m) : m.get k = some v := by
  induction m with
  | nil => cases h
  | cons kv rest ih =>
    simp only [List.map_cons, List.nodup_cons] at hnd
    rcases List.mem_cons.mp h with h1 | h1
    · rw [FMap.get, ← h1]
      simp
    · have hk : kv.1 ≠ k := by
        intro hh
        exact hnd.1 (hh ▸ List.mem_map_of_mem Prod.fst h1)
      rw [FMap.get, if_neg hk]
      exact ih hnd.2 h1

theorem marshalEmit_eq_none (kv : String × GoVal) (h : kv.2.isZeroJson = true) :
    marshalEmit kv = none := by
  rw [marshalEmit, if_pos h]

theorem marshalEmit_eq_some (kv : String × GoVal) (h : ¬ kv.2.isZeroJson = true) :
    marshalEmit kv = some (kv.1, kv.2.toJVal) := by
  rw [marshalEmit, if_neg h]

theorem marshalFields_keys_sublist (fields : List (String × GoVal)) :
    ((marshalFields fields).map Prod.fst).Sublist (fields.map Prod.fst) := by
  induction fields with
  | nil => simp [marshalFields]
  | cons kv rest ih =>
    rw [marshalFields, List.filterMap_cons]
    by_cases h : kv.2.isZeroJson = true
    · rw [marshalEmit_eq_none kv h]
      exact ih.trans (List.sublist_cons_self kv.1 _)
    · rw [marshalEmit_eq_some kv h, List.map_cons, List.map_cons]
      exact List.Sublist.cons₂ kv.1 ih

theorem marshalFields_keys_nodup (fields : List (String × GoVal))
    (hnd : (fields.map Prod.fst).Nodup) : ((marshalFields fields).map Prod.fst).Nodup :=
  hnd.sublist (marshalFields_keys_sublist fields)

theorem marshalFields_get (fields : List (String × GoVal))
    (hnd : (fields.map Prod.fst).Nodup) (t : String) (v : GoVal)
    (hmem : (t, v) ∈ fields) :
    (marshalFields fields).get t = if v.isZeroJson then none else some v.toJVal := by
  by_cases hz : v.isZeroJson = true
  · rw [if_pos hz, FMap.get_eq_none_iff]
    intro hk
    obtain ⟨⟨t2, j⟩, hmem2, ht2⟩ := List.mem_map.mp hk
    obtain ⟨kv, hkv, hf⟩ := List.mem_filterMap.mp hmem2
    by_cases hz2 : kv.2.isZeroJson = true
    · rw [marshalEmit_eq_none kv hz2] at hf
      exact Option.noConfusion hf
    · rw [marshalEmit_eq_some kv hz2, Option.some_inj] at hf
      have hk1 : kv.1 = t := by
        have h1 : kv.1 = t2 := congrArg Prod.fst hf
        rw [h1]
        exact ht2
      have hmem4 : (t, kv.2) ∈ fields := by
        rw [← hk1]
        exact hkv
      have hveq : kv.2 = v := mem_unique_of_nodup_keys fields hnd hmem4 hmem
      rw [hveq] at hz2
      exact hz2 hz
  · rw [if_neg hz]
    apply FMap.get_eq_some_of_mem _ (marshalFields_keys_nodup fields hnd)
    exact List.mem_filterMap.mpr ⟨(t, v), hmem, marshalEmit_eq_some (t, v) hz⟩

theorem marshalFields_get_none (fields : List (String × GoVal)) (t : String)
    (h : t ∉ fields.map Prod.fst) : (marshalFields fields).get t = none := by
  rw [FMap.get_eq_none_iff]
  intro hk
  exact h ((marshalFields_keys_sublist fields).mem hk)

theorem queryPairs_key_spec (fields : List (String × GoVal)) (t s : String)
    (h : (t, s) ∈ queryPairs fields) :
    ∃ v, (t, v) ∈ fields ∧ v.isZero = false ∧ t ≠ "" ∧ t ≠ "-" ∧ v.render = some s := by
  obtain ⟨kv, hmem, hf⟩ := List.mem_filterMap.mp h
  rw [queryEmit] at hf
  by_cases hz : kv.2.isZero = true
  · rw [if_pos hz] at hf
    exact Option.noConfusion hf
  · rw [if_neg hz] at hf
    by_cases htag : (kv.1 == "" || kv.1 == "-") = true
    · rw [if_pos htag] at hf
      exact Option.noConfusion hf
    · rw [if_neg htag] at hf
      have htag2 : kv.1 ≠ "" ∧ kv.1 ≠ "-" := by
        constructor <;> intro hh <;> exact htag (by simp [hh])
      rcases hr : kv.2.render with _ | s2
      · rw [hr] at hf
        exact Option.noConfusion hf
      · rw [hr] at hf
        have hf2 : (kv.1, s2) = (t, s) := by simpa using hf
        have h1 : kv.1 = t := congrArg Prod.fst hf2
        have h2 : s2 = s := congrArg Prod.snd hf2
        refine ⟨kv.2, ?_, by simpa using hz, h1 ▸ htag2.1, h1 ▸ htag2.2, h2 ▸ hr⟩
        rw [← h1]
        exact hmem

theorem queryPairs_skips_zero (fields : List (String × GoVal))
    (hnd : (fields.map Prod.fst).Nodup) (t : String) (v : GoVal)
    (hmem : (t, v) ∈ fields) (hz : v.isZero = true) :
    t ∉ (queryPairs fields).map Prod.fst := by
  intro hk
  obtain ⟨⟨t2, s⟩, hmem2, ht2⟩ := List.mem_map.mp hk
  obtain ⟨v2, hmem3, hz2, -, -, -⟩ := queryPairs_key_spec fields t2 s hmem2
  have hveq : v2 = v := mem_unique_of_nodup_keys fields hnd (ht2 ▸ hmem3) hmem
  rw [hveq, hz] at hz2
  cases hz2

theorem memoryOptions_queryKeys (o : MemoryOptions) :
    o.queryFields.map Prod.fst =
      ["api_version,omitempty", "version,omitempty", "user_id,omitempty",
       "agent_id,omitempty", "app_id,omitempty", "run_id,omitempty",
       "timestamp,omitempty", "metadata,omitempty", "filters,omitempty",
       "org_id,omitempty", "project_id,omitempty", "infer,omitempty",
       "page,omitempty", "page_size,omitempty", "includes,omitempty",
       "excludes,omitempty", "enable_graph,omitempty", "start_date,omitempty",
       "end_date,omitempty", "custom_categories,omitempty",
       "custom_instructions,omitempty", "messages,omitempty"] := rfl

theorem memoryOptions_queryKeys_nodup (o : MemoryOptions) :
    (o.queryFields.map Prod.fst).Nodup := by
  rw [memoryOptions_queryKeys]
  decide

theorem searchOptions_queryKeys (o : SearchOptions) :
    o.queryFields.map Prod.fst =
      ["", "enable_graph,omitempty", "threshold,omitempty", "top_k,omitempty",
       "only_metadata_based_search,omitempty", "keyword_search,omitempty",
       "fields,omitempty", "categories,omitempty", "rerank,omitempty",
       "version,omitempty"] := rfl

theorem searchOptions_queryKeys_nodup (o : SearchOptions) :
    (o.queryFields.map Prod.fst).Nodup := by
  rw [searchOptions_queryKeys]
  decide

theorem projectOptions_queryKeys (o : ProjectOptions) :
    o.queryFields.map Prod.fst = ["fields,omitempty"] := rfl

theorem projectOptions_queryKeys_nodup (o : ProjectOptions) :
    (o.queryFields.map Prod.fst).Nodup := by
  rw [projectOptions_queryKeys]
  decide

theorem memoryOptions_bodyKeys (o : MemoryOptions) :
    o.bodyFields.map Prod.fst =
      ["api_version", "version", "user_id", "agent_id", "app_id", "run_id",
       "timestamp", "metadata", "filters", "org_id", "project_id", "infer",
       "page", "page_size", "includes", "excludes", "enable_graph",
       "start_date", "end_date", "custom_categories", "custom_instructions",
       "messages"] := rfl

theorem memoryOptions_bodyKeys_nodup (o : MemoryOptions) :
    (o.bodyFields.map Prod.fst).Nodup := by
  rw [memoryOptions_bodyKeys]
  decide

theorem searchOptions_bodyKeys (o : SearchOptions) :
    o.bodyFields.map Prod.fst =
      ["api_version", "user_id", "agent_id", "app_id", "run_id", "timestamp",
       "metadata", "filters", "org_id", "project_id", "infer", "page",
       "page_size", "includes", "excludes", "start_date", "end_date",
       "custom_categories", "custom_instructions", "messages", "enable_graph",
       "threshold", "top_k", "only_metadata_based_search", "keyword_search",
       "fields", "categories", "rerank", "version"] := rfl

theorem searchOptions_bodyKeys_nodup (o : SearchOptions) :
    (o.bodyFields.map Prod.fst).Nodup := by
  rw [searchOptions_bodyKeys]
  decide

theorem adjustOptions_Version (c : MemoryClient) (o : MemoryOptions) :
    (adjustOptions c o).Version = o.Version := by
  rw [adjustOptions]
  split <;> rfl

theorem adjustOptions_Messages (c : MemoryClient) (o : MemoryOptions) :
    (adjustOptions c o).Messages = o.Messages := by
  rw [adjustOptions]
  split <;> rfl

theorem adjustSearchOptions_Version (c : MemoryClient) (o : SearchOptions) :
    (adjustSearchOptions c o).Version = o.Version := by
  rw [adjustSearchOptions]
  split <;> rfl

theorem adjustSearchOptions_Filters (c : MemoryClient) (o : SearchOptions) :
    (adjustSearchOptions c o).memoryOptions.Filters = o.memoryOptions.Filters := by
  rw [adjustSearchOptions]
  split <;> rfl

theorem preparePayloadRest_get (c : MemoryClient) (msgs : List Message) (o : MemoryOptions)
    (m : FMap) (h : preparePayloadRest c msgs o = .ok m) (t : String)
    (ht : t ≠ "version") :
    m.get t = (FMap.mergeFrom [("messages", messagesToJVal msgs)]
      (adjustOptions c o).toJsonMap).get t := by
  simp only [preparePayloadRest] at h
  by_cases hmsg : ((FMap.mergeFrom [("messages", messagesToJVal msgs)]
      (adjustOptions c o).toJsonMap).get "messages").isNone = true
  · rw [if_pos hmsg] at h
    exact Except.noConfusion h
  · rw [if_neg hmsg] at h
    by_cases hdef : APIVersion.IsDefault (adjustOptions c o).Version = true
    · rw [if_pos hdef] at h
      injection h with hm
      rw [← hm, FMap.get_set, if_neg ht]
    · rw [if_neg hdef] at h
      injection h with hm
      rw [← hm]

/-- C1: for every filter mapping (including nil), `fixAPIV2Filters` returns a
mapping in which `agent_id` is absent (removed if present), `user_id`,
`app_id`, `run_id` are present (set to the wildcard sentinel `"*"` when absent
in the input), and every other key maps to the same value as in the input. -/
theorem claim_C1 (filters : Option FMap) :
    (fixAPIV2Filters filters).get "agent_id" = none
    ∧ (fixAPIV2Filters filters).get "user_id"
        = some (((filters.getD []).get "user_id").getD (.str SearchWildcard))
    ∧ (fixAPIV2Filters filters).get "app_id"
        = some (((filters.getD []).get "app_id").getD (.str SearchWildcard))
    ∧ (fixAPIV2Filters filters).get "run_id"
        = some (((filters.getD []).get "run_id").getD (.str SearchWildcard))
    ∧ ∀ k, k ≠ "agent_id" → k ≠ "user_id" → k ≠ "app_id" → k ≠ "run_id" →
        (fixAPIV2Filters filters).get k = (filters.getD []).get k := by
  refine ⟨?_, ?_, ?_, ?_, ?_⟩
  · rw [fixAPIV2Filters_get]
    simp
  · rw [fixAPIV2Filters_get]
    simp
  · rw [fixAPIV2Filters_get]
    simp
  · rw [fixAPIV2Filters_get]
    simp
  · intro k h1 h2 h3 h4
    rw [fixAPIV2Filters_get]
    simp [h1, h2, h3, h4]

/-- Witness for C1 at a concrete input: a present `agent_id` is removed, a
foreign key keeps its value, a missing `user_id` is defaulted. -/
theorem claim_C1_witness :
    (("team" : String) ≠ "agent_id" ∧ ("team" : String) ≠ "user_id"
      ∧ ("team" : String) ≠ "app_id" ∧ ("team" : String) ≠ "run_id")
    ∧ (fixAPIV2Filters (some [("agent_id", .str "a"), ("team", .str "t")])).get "team"
        = some (.str "t")
    ∧ (fixAPIV2Filters (some [("agent_id", .str "a"), ("team", .str "t")])).get "agent_id"
        = none
    ∧ (fixAPIV2Filters (some [("agent_id", .str "a"), ("team", .str "t")])).get "user_id"
        = some (.str "*") := by
  have h := claim_C1 (some [("agent_id", .str "a"), ("team", .str "t")])
  refine ⟨⟨by decide, by decide, by decide, by decide⟩, ?_, h.1, ?_⟩
  · rw [h.2.2.2.2 "team" (by decide) (by decide) (by decide) (by decide)]
    rfl
  · rw [h.2.1]
    rfl

/-- C3: every HTTP response with a status outside the success range makes the
operation return an `APIError` whose message carries the decimal status code
and the raw response body verbatim. -/
theorem claim_C3 (status : Nat) (body : String) (h : status < 200 ∨ 300 ≤ status) :
    ∃ e : APIError, Add.handleResponse status body = .error e
      ∧ ContainsSub e.Message (toString status) ∧ ContainsSub e.Message body := by
  have hne : status ≠ 200 := by omega
  refine ⟨⟨apiErrorMessage status body⟩, by rw [Add.handleResponse, if_pos hne], ?_, ?_⟩
  · refine ⟨"API request failed with status ", ": " ++ body, ?_⟩
    rw [apiErrorMessage]
    simp [String.append_assoc]
  · refine ⟨"API request failed with status " ++ toString status ++ ": ", "", ?_⟩
    rw [apiErrorMessage]
    simp [String.append_assoc]

/-- Witness for C3: a call answered with HTTP 429 and body "rate limited"
returns an API error whose message contains both "429" and "rate limited". -/
theorem claim_C3_witness :
    ((429 : Nat) < 200 ∨ 300 ≤ (429 : Nat))
    ∧ ∃ e : APIError, Add.handleResponse 429 "rate limited" = .error e
      ∧ ContainsSub e.Message "429" ∧ ContainsSub e.Message "rate limited" :=
  ⟨by decide, claim_C3 429 "rate limited" (by decide)⟩

/-- C4: `NewMemoryClient` with an empty API key, or with exactly one of the
name pair or exactly one of the id pair set, returns a configuration error,
issues no network call, and its result does not depend on the ping. -/
theorem claim_C4 (options : ClientOptions) (ping : PingOutcome)
    (h : options.APIKey = ""
      ∨ (options.OrganizationName = "" ∧ options.ProjectName ≠ "")
      ∨ (options.OrganizationName ≠ "" ∧ options.ProjectName = "")
      ∨ (options.OrganizationID = "" ∧ options.ProjectID ≠ "")
      ∨ (options.OrganizationID ≠ "" ∧ options.ProjectID = "")) :
    (∃ e, (NewMemoryClient options ping).1 = .error e)
    ∧ (NewMemoryClient options ping).2 = false
    ∧ ∀ ping2, NewMemoryClient options ping = NewMemoryClient options ping2 := by
  by_cases hk : options.APIKey = ""
  · refine ⟨⟨"API key is required", ?_⟩, ?_, fun ping2 => ?_⟩ <;>
      simp [NewMemoryClient, hk]
  · have hv : ∃ e, validateOrgProject (buildClient options) = some e := by
      by_cases hn : ((buildClient options).organizationName = ""
            ∧ (buildClient options).projectName ≠ "")
          ∨ ((buildClient options).organizationName ≠ ""
            ∧ (buildClient options).projectName = "")
      · exact ⟨_, by rw [validateOrgProject, if_pos hn]⟩
      · have hid : ((buildClient options).organizationID = ""
              ∧ (buildClient options).projectID ≠ "")
            ∨ ((buildClient options).organizationID ≠ ""
              ∧ (buildClient options).projectID = "") := by
          rcases h with h | h | h | h | h
          · exact absurd h hk
          · exact absurd (Or.inl h) hn
          · exact absurd (Or.inr h) hn
          · exact Or.inl h
          · exact Or.inr h
        exact ⟨_, by rw [validateOrgProject, if_neg hn, if_pos hid]⟩
    obtain ⟨e, he⟩ := hv
    refine ⟨⟨e, ?_⟩, ?_, fun ping2 => ?_⟩ <;>
      simp [NewMemoryClient, hk, he]

/-- Witness for C4: an all-empty `ClientOptions` has an empty API key; the
constructor fails with no network call. -/
theorem claim_C4_witness :
    (({} : ClientOptions).APIKey = ""
      ∨ (({} : ClientOptions).OrganizationName = "" ∧ ({} : ClientOptions).ProjectName ≠ "")
      ∨ (({} : ClientOptions).OrganizationName ≠ "" ∧ ({} : ClientOptions).ProjectName = "")
      ∨ (({} : ClientOptions).OrganizationID = "" ∧ ({} : ClientOptions).ProjectID ≠ "")
      ∨ (({} : ClientOptions).OrganizationID ≠ "" ∧ ({} : ClientOptions).ProjectID = ""))
    ∧ (∃ e, (NewMemoryClient {} (.ok "o" "p" "e")).1 = .error e)
    ∧ (NewMemoryClient {} (.ok "o" "p" "e")).2 = false := by
  have h := claim_C4 {} (.ok "o" "p" "e") (Or.inl rfl)
  exact ⟨Or.inl rfl, h.1, h.2.1⟩

/-- C8 counterexample: `Get` called with an empty identifier does not return a
local error; it issues the HTTP request with the empty identifier interpolated
into the path. -/
theorem claim_C8_counterexample :
    Get.step "" = .httpRequest "GET" "/v1/memories//"
    ∧ ∀ msg, Get.step "" ≠ .localError msg :=
  ⟨rfl, fun _ h => FirstStep.noConfusion h⟩

/-- C8 amended: the identifier-taking operations perform no local validation
at all; for every identifier, the empty one included, the HTTP request is
issued directly with the identifier interpolated into the path, and no local
error is ever returned. -/
theorem claim_C8_amended (ident : String) :
    Get.step ident = .httpRequest "GET" ("/v1/memories/" ++ ident ++ "/")
    ∧ Update.step ident = .httpRequest "PUT" ("/v1/memories/" ++ ident ++ "/")
    ∧ Delete.step ident = .httpRequest "DELETE" ("/v1/memories/" ++ ident ++ "/")
    ∧ DeleteUser.step ident = .httpRequest "DELETE" ("/v1/users/" ++ ident ++ "/")
    ∧ DeleteWebhook.step ident = .httpRequest "DELETE" ("/v1/webhooks/" ++ ident ++ "/")
    ∧ GetEvent.step ident = .httpRequest "GET" ("/v1/event/" ++ ident ++ "/")
    ∧ (∀ msg, Get.step ident ≠ .localError msg)
    ∧ (∀ msg, Update.step ident ≠ .localError msg)
    ∧ (∀ msg, Delete.step ident ≠ .localError msg)
    ∧ (∀ msg, DeleteUser.step ident ≠ .localError msg)
    ∧ (∀ msg, DeleteWebhook.step ident ≠ .localError msg)
    ∧ (∀ msg, GetEvent.step ident ≠ .localError msg) :=
  ⟨rfl, rfl, rfl, rfl, rfl, rfl,
    fun _ h => FirstStep.noConfusion h, fun _ h => FirstStep.noConfusion h,
    fun _ h => FirstStep.noConfusion h, fun _ h => FirstStep.noConfusion h,
    fun _ h => FirstStep.noConfusion h, fun _ h => FirstStep.noConfusion h⟩

/-- C2 counterexample: with zero options the `Version` field is zero, yet the
request-body map built by `preparePayload` carries the key `"version"`, set to
the default version by the fallback. -/
theorem claim_C2_counterexample :
    ({} : MemoryOptions).Version = ""
    ∧ preparePayload {} (.str "hi") {}
        = .ok [("messages", messagesToJVal [⟨"user", "hi"⟩]), ("version", .str "v2")] :=
  ⟨rfl, rfl⟩

/-- C2 amended: a zero-valued field never appears in the query string emitted
by `structToQuery` (its tag names no emitted parameter) nor in the marshalled
options map, and the request-body map built by `preparePayload` has no key for
a zero-valued field of the adjusted options either — except for the two keys
the code itself always writes: `"messages"`, set from the messages argument,
and `"version"`, set to the default version whenever the `Version` field is
zero or already the default. -/
theorem claim_C2_amended :
    (∀ (o : MemoryOptions) (t : String) (v : GoVal),
      (t, v) ∈ o.queryFields → v.isZero = true →
      t ∉ (queryPairs o.queryFields).map Prod.fst)
    ∧ (∀ (o : SearchOptions) (t : String) (v : GoVal),
      (t, v) ∈ o.queryFields → v.isZero = true →
      t ∉ (queryPairs o.queryFields).map Prod.fst)
    ∧ (∀ (o : ProjectOptions) (t : String) (v : GoVal),
      (t, v) ∈ o.queryFields → v.isZero = true →
      t ∉ (queryPairs o.queryFields).map Prod.fst)
    ∧ (∀ (o : MemoryOptions) (t : String) (v : GoVal),
      (t, v) ∈ o.bodyFields → v.isZeroJson = true → o.toJsonMap.get t = none)
    ∧ (∀ (o : SearchOptions) (t : String) (v : GoVal),
      (t, v) ∈ o.bodyFields → v.isZeroJson = true → o.toJsonMap.get t = none)
    ∧ (∀ (c : MemoryClient) (msgs : Messages) (o : MemoryOptions) (m : FMap)
        (t : String) (v : GoVal), preparePayload c msgs o = .ok m →
        (t, v) ∈ (adjustOptions c o).bodyFields → v.isZeroJson = true →
        t ≠ "messages" → t ≠ "version" → m.get t = none) := by
  refine ⟨?_, ?_, ?_, ?_, ?_, ?_⟩
  · exact fun o t v hm hz => queryPairs_skips_zero _ (memoryOptions_queryKeys_nodup o) t v hm hz
  · exact fun o t v hm hz => queryPairs_skips_zero _ (searchOptions_queryKeys_nodup o) t v hm hz
  · exact fun o t v hm hz => queryPairs_skips_zero _ (projectOptions_queryKeys_nodup o) t v hm hz
  · intro o t v hm hz
    rw [MemoryOptions.toJsonMap,
      marshalFields_get _ (memoryOptions_bodyKeys_nodup o) t v hm, if_pos hz]
  · intro o t v hm hz
    rw [SearchOptions.toJsonMap,
      marshalFields_get _ (searchOptions_bodyKeys_nodup o) t v hm, if_pos hz]
  · intro c msgs o m t v h hm hz ht1 ht2
    have hnone : (adjustOptions c o).toJsonMap.get t = none := by
      rw [MemoryOptions.toJsonMap,
        marshalFields_get _ (memoryOptions_bodyKeys_nodup _) t v hm, if_pos hz]
    have hnotin : t ∉ ((adjustOptions c o).toJsonMap).map Prod.fst :=
      (FMap.get_eq_none_iff _ t).mp hnone
    have key : ∀ msgs2 : List Message, preparePayloadRest c msgs2 o = .ok m →
        m.get t = none := by
      intro msgs2 h2
      rw [preparePayloadRest_get c msgs2 o m h2 t ht2,
        FMap.get_mergeFrom_of_not_mem _ _ t hnotin, FMap.get,
        if_neg (fun hh => ht1 hh.symm)]
      rfl
    cases msgs with
    | str s => exact key _ h
    | strList xs => exact key _ h
    | msg mm => exact key _ h
    | msgList xs => exact key _ h
    | other => exact Except.noConfusion h

/-- Witness for C2 at a concrete input: the zero `UserID` field of a zero
options value produces no query parameter. -/
theorem claim_C2_amended_witness :
    (("user_id,omitempty", GoVal.str "") ∈ ({} : MemoryOptions).queryFields
      ∧ GoVal.isZero (.str "") = true)
    ∧ "user_id,omitempty" ∉ (queryPairs ({} : MemoryOptions).queryFields).map Prod.fst := by
  have hmem : ("user_id,omitempty", GoVal.str "") ∈ ({} : MemoryOptions).queryFields := by
    simp [MemoryOptions.queryFields]
  exact ⟨⟨hmem, rfl⟩, claim_C2_amended.1 {} "user_id,omitempty" (.str "") hmem rfl⟩

/-- C7 counterexample: the emitted query parameter is named by the full json
tag text, not by the wire name alone: a `MemoryOptions` with only `UserID` set
emits the single parameter name `"user_id,omitempty"`. -/
theorem claim_C7_counterexample :
    (queryPairs ({ UserID := "u" } : MemoryOptions).queryFields).map Prod.fst
      = ["user_id,omitempty"]
    ∧ ("user_id,omitempty" : String) ≠ "user_id" :=
  ⟨rfl, by decide⟩

/-- C7 amended: every emitted query parameter is named by the field's full
json tag text taken verbatim (wire name together with tag options, e.g.
`user_id,omitempty`), and every field whose json tag is `""` or `"-"` is
skipped entirely. -/
theorem claim_C7_amended :
    (∀ (o : MemoryOptions) (t s : String), (t, s) ∈ queryPairs o.queryFields →
      (∃ v, (t, v) ∈ o.queryFields) ∧ t ≠ "" ∧ t ≠ "-")
    ∧ (∀ (o : SearchOptions) (t s : String), (t, s) ∈ queryPairs o.queryFields →
      (∃ v, (t, v) ∈ o.queryFields) ∧ t ≠ "" ∧ t ≠ "-")
    ∧ (∀ (o : ProjectOptions) (t s : String), (t, s) ∈ queryPairs o.queryFields →
      (∃ v, (t, v) ∈ o.queryFields) ∧ t ≠ "" ∧ t ≠ "-") := by
  refine ⟨?_, ?_, ?_⟩ <;>
    · intro o t s hm
      obtain ⟨v, h1, -, h3, h4, -⟩ := queryPairs_key_spec _ t s hm
      exact ⟨⟨v, h1⟩, h3, h4⟩

/-- Witness for C7 at a concrete input. -/
theorem claim_C7_amended_witness :
    ("user_id,omitempty", "u") ∈ queryPairs ({ UserID := "u" } : MemoryOptions).queryFields
    ∧ (∃ v, ("user_id,omitempty", v) ∈ ({ UserID := "u" } : MemoryOptions).queryFields)
    ∧ ("user_id,omitempty" : String) ≠ "" ∧ ("user_id,omitempty" : String) ≠ "-" := by
  have hm : ("user_id,omitempty", "u")
      ∈ queryPairs ({ UserID := "u" } : MemoryOptions).queryFields := by decide
  have h := claim_C7_amended.1 { UserID := "u" } "user_id,omitempty" "u" hm
  exact ⟨hm, h.1, h.2.1, h.2.2⟩

/-- C10: `SearchOptions.ToQuery` emits no parameter for any field of the
embedded `MemoryOptions` (which carries no json tag and is skipped whole):
every emitted parameter name — both in the emitted pair list and in the parsed
query string — is one of the nine tags declared directly on `SearchOptions`. -/
theorem claim_C10 :
    (∀ (o : SearchOptions) (t s : String), (t, s) ∈ queryPairs o.queryFields →
      t ∈ ["enable_graph,omitempty", "threshold,omitempty", "top_k,omitempty",
        "only_metadata_based_search,omitempty", "keyword_search,omitempty",
        "fields,omitempty", "categories,omitempty", "rerank,omitempty",
        "version,omitempty"])
    ∧ (∀ (o : SearchOptions) (t s : String), ByteBounded (queryPairs o.queryFields) →
      (t, s) ∈ parseQuery o.ToQuery →
      t ∈ ["enable_graph,omitempty", "threshold,omitempty", "top_k,omitempty",
        "only_metadata_based_search,omitempty", "keyword_search,omitempty",
        "fields,omitempty", "categories,omitempty", "rerank,omitempty",
        "version,omitempty"]) := by
  have main : ∀ (o : SearchOptions) (t s : String), (t, s) ∈ queryPairs o.queryFields →
      t ∈ ["enable_graph,omitempty", "threshold,omitempty", "top_k,omitempty",
        "only_metadata_based_search,omitempty", "keyword_search,omitempty",
        "fields,omitempty", "categories,omitempty", "rerank,omitempty",
        "version,omitempty"] := by
    intro o t s hm
    obtain ⟨v, h1, -, h3, -, -⟩ := queryPairs_key_spec _ t s hm
    have hk : t ∈ o.queryFields.map Prod.fst := List.mem_map_of_mem Prod.fst h1
    rw [searchOptions_queryKeys] at hk
    rcases List.mem_cons.mp hk with hk | hk
    · exact absurd hk h3
    · exact hk
  refine ⟨main, fun o t s hb hm => main o t s ?_⟩
  have hperm := parseQuery_valuesEncode_perm _ hb
  rw [SearchOptions.ToQuery, structToQuery] at hm
  exact hperm.mem_iff.mp hm

/-- Witness for C10 at a concrete input with a populated embedded options
value: the one emitted parameter belongs to the own-field tags. -/
theorem claim_C10_witness :
    ("enable_graph,omitempty", "true") ∈ queryPairs
      ({ EnableGraph := true, memoryOptions := { UserID := "u" } } : SearchOptions).queryFields
    ∧ "enable_graph,omitempty" ∈ ["enable_graph,omitempty", "threshold,omitempty",
        "top_k,omitempty", "only_metadata_based_search,omitempty", "keyword_search,omitempty",
        "fields,omitempty", "categories,omitempty", "rerank,omitempty",
        "version,omitempty"] := by
  have hm : ("enable_graph,omitempty", "true") ∈ queryPairs
      ({ EnableGraph := true, memoryOptions := { UserID := "u" } } : SearchOptions).queryFields := by
    decide
  exact ⟨hm, claim_C10.1 _ _ _ hm⟩

theorem mem_bodyFields_messages (o : MemoryOptions) :
    ("messages", GoVal.msgList o.Messages) ∈ o.bodyFields := by
  simp [MemoryOptions.bodyFields]

theorem preparePayloadRest_get_messages (c : MemoryClient) (msgs : List Message)
    (o : MemoryOptions) :
    ∃ m, preparePayloadRest c msgs o = .ok m
      ∧ m.get "messages" = (if o.Messages.isEmpty then some (messagesToJVal msgs)
          else some (messagesToJVal o.Messages)) := by
  have hadjm : (adjustOptions c o).Messages = o.Messages := adjustOptions_Messages c o
  have hX : (FMap.mergeFrom [("messages", messagesToJVal msgs)]
      (adjustOptions c o).toJsonMap).get "messages"
      = (if o.Messages.isEmpty then some (messagesToJVal msgs)
          else some (messagesToJVal o.Messages)) := by
    by_cases hE : o.Messages.isEmpty = true
    · rw [if_pos hE]
      have hz : (GoVal.msgList (adjustOptions c o).Messages).isZeroJson = true := by
        show (adjustOptions c o).Messages.isEmpty = true
        rw [hadjm]
        exact hE
      have hnone : (adjustOptions c o).toJsonMap.get "messages" = none := by
        rw [MemoryOptions.toJsonMap,
          marshalFields_get _ (memoryOptions_bodyKeys_nodup _) _ _
            (mem_bodyFields_messages _), if_pos hz]
      rw [FMap.get_mergeFrom_of_not_mem _ _ _ ((FMap.get_eq_none_iff _ _).mp hnone)]
      rfl
    · rw [if_neg hE]
      have hz : ¬ (GoVal.msgList (adjustOptions c o).Messages).isZeroJson = true := by
        show ¬ (adjustOptions c o).Messages.isEmpty = true
        rw [hadjm]
        exact hE
      have hsome : (adjustOptions c o).toJsonMap.get "messages"
          = some (GoVal.msgList (adjustOptions c o).Messages).toJVal := by
        rw [MemoryOptions.toJsonMap,
          marshalFields_get _ (memoryOptions_bodyKeys_nodup _) _ _
            (mem_bodyFields_messages _), if_neg hz]
      have hmemX := FMap.mem_of_get_eq_some _ _ _ hsome
      have hnd : (((adjustOptions c o).toJsonMap).map Prod.fst).Nodup := by
        rw [MemoryOptions.toJsonMap]
        exact marshalFields_keys_nodup _ (memoryOptions_bodyKeys_nodup _)
      have hval : (GoVal.msgList ((adjustOptions c o).Messages)).toJVal
          = messagesToJVal o.Messages := by
        rw [hadjm]
        rfl
      rw [FMap.get_mergeFrom_of_mem _ _ _ _ hnd hmemX rfl, hval]
  have hno : ¬ ((FMap.mergeFrom [("messages", messagesToJVal msgs)]
      (adjustOptions c o).toJsonMap).get "messages").isNone = true := by
    rw [hX]
    split <;> simp
  by_cases hdef : APIVersion.IsDefault (adjustOptions c o).Version = true
  · refine ⟨(FMap.mergeFrom [("messages", messagesToJVal msgs)]
      (adjustOptions c o).toJsonMap).set "version" (.str DefaultAPIVersion), ?_, ?_⟩
    · simp only [preparePayloadRest]
      rw [if_neg hno, if_pos hdef]
    · rw [FMap.get_set, if_neg (by decide)]
      exact hX
  · refine ⟨FMap.mergeFrom [("messages", messagesToJVal msgs)]
      (adjustOptions c o).toJsonMap, ?_, ?_⟩
    · simp only [preparePayloadRest]
      rw [if_neg hno, if_neg hdef]
    · exact hX

/-- C9 counterexample: for a bare string argument with a non-empty `Messages`
field in the options, the `"messages"` key of the payload holds the options'
messages, not the one built from the argument. -/
theorem claim_C9_counterexample :
    preparePayload {} (.str "hi") { Messages := [⟨"assistant", "x"⟩] }
      = .ok [("messages", messagesToJVal [⟨"assistant", "x"⟩]), ("version", .str "v2")]
    ∧ messagesToJVal [⟨"assistant", "x"⟩] ≠ messagesToJVal [⟨"user", "hi"⟩] := by
  refine ⟨rfl, fun hEq => ?_⟩
  simp [messagesToJVal, GoVal.toJVal] at hEq

/-- C9 amended: `preparePayload` errors exactly when the messages argument is
none of the four accepted shapes; for each accepted shape the `"messages"` key
holds the corresponding list of `Message` values (role "user" for bare
strings) — unless the options' `Messages` field is non-empty, in which case
the merged options overwrite the key with that field's value. -/
theorem claim_C9_amended (c : MemoryClient) (o : MemoryOptions) :
    preparePayload c .other o = .error "invalid messages type"
    ∧ (∀ msgs : Messages, msgs ≠ .other → ∃ m, preparePayload c msgs o = .ok m)
    ∧ (o.Messages = [] → ∀ s, ∃ m, preparePayload c (.str s) o = .ok m
        ∧ m.get "messages" = some (messagesToJVal [⟨"user", s⟩]))
    ∧ (o.Messages = [] → ∀ xs, ∃ m, preparePayload c (.strList xs) o = .ok m
        ∧ m.get "messages" = some (messagesToJVal (xs.map (fun t => ⟨"user", t⟩))))
    ∧ (o.Messages = [] → ∀ mm, ∃ m, preparePayload c (.msg mm) o = .ok m
        ∧ m.get "messages" = some (messagesToJVal [mm]))
    ∧ (o.Messages = [] → ∀ xs, ∃ m, preparePayload c (.msgList xs) o = .ok m
        ∧ m.get "messages" = some (messagesToJVal xs))
    ∧ (o.Messages ≠ [] → ∀ msgs : Messages, msgs ≠ .other →
        ∃ m, preparePayload c msgs o = .ok m
          ∧ m.get "messages" = some (messagesToJVal o.Messages)) := by
  have hEmp : ∀ msgs2 : List Message, o.Messages = [] →
      ∃ m, preparePayloadRest c msgs2 o = .ok m
        ∧ m.get "messages" = some (messagesToJVal msgs2) := by
    intro msgs2 hE
    obtain ⟨m, hm, hg⟩ := preparePayloadRest_get_messages c msgs2 o
    rw [hE] at hg
    simp only [List.isEmpty_nil, if_true] at hg
    exact ⟨m, hm, hg⟩
  refine ⟨rfl, ?_, ?_, ?_, ?_, ?_, ?_⟩
  · intro msgs hne
    cases msgs with
    | other => exact absurd rfl hne
    | str s =>
      obtain ⟨m, hm, -⟩ := preparePayloadRest_get_messages c [⟨"user", s⟩] o
      exact ⟨m, hm⟩
    | strList xs =>
      obtain ⟨m, hm, -⟩ := preparePayloadRest_get_messages c (xs.map (fun t => ⟨"user", t⟩)) o
      exact ⟨m, hm⟩
    | msg mm =>
      obtain ⟨m, hm, -⟩ := preparePayloadRest_get_messages c [mm] o
      exact ⟨m, hm⟩
    | msgList xs =>
      obtain ⟨m, hm, -⟩ := preparePayloadRest_get_messages c xs o
      exact ⟨m, hm⟩
  · exact fun hE s => hEmp [⟨"user", s⟩] hE
  · exact fun hE xs => hEmp (xs.map (fun t => ⟨"user", t⟩)) hE
  · exact fun hE mm => hEmp [mm] hE
  · exact fun hE xs => hEmp xs hE
  · intro hNE msgs hne
    have hE2 : o.Messages.isEmpty = false := by
      cases hM : o.Messages with
      | nil => exact absurd hM hNE
      | cons a l => rfl
    have hOver : ∀ msgs2 : List Message,
        ∃ m, preparePayloadRest c msgs2 o = .ok m
          ∧ m.get "messages" = some (messagesToJVal o.Messages) := by
      intro msgs2
      obtain ⟨m, hm, hg⟩ := preparePayloadRest_get_messages c msgs2 o
      rw [hE2] at hg
      simp only [Bool.false_eq_true, if_false] at hg
      exact ⟨m, hm, hg⟩
    cases msgs with
    | other => exact absurd rfl hne
    | str s => exact hOver [⟨"user", s⟩]
    | strList xs => exact hOver (xs.map (fun t => ⟨"user", t⟩))
    | msg mm => exact hOver [mm]
    | msgList xs => exact hOver xs

/-- Witness for C9 at a concrete input: with empty options a bare string
becomes a single user message under `"messages"`. -/
theorem claim_C9_amended_witness :
    ({} : MemoryOptions).Messages = []
    ∧ ∃ m, preparePayload {} (.str "hi") {} = .ok m
        ∧ m.get "messages" = some (messagesToJVal [⟨"user", "hi"⟩]) :=
  ⟨rfl, (claim_C9_amended {} {}).2.2.1 rfl "hi"⟩

theorem mem_bodyFields_filters_search (o : SearchOptions) :
    ("filters", GoVal.jmap o.memoryOptions.Filters) ∈ o.bodyFields := by
  simp [SearchOptions.bodyFields, MemoryOptions.bodyFields]

theorem searchNormalizeFilters_get (version : Mem0.APIVersion) (payload : FMap)
    (kvs : FMap) (h : payload.get "filters" = some (.obj kvs)) :
    (searchNormalizeFilters version payload).get "filters"
      = some (.obj (if APIVersion.IsDefault version = true
          then fixAPIV2Filters (some kvs) else kvs)) := by
  rw [searchNormalizeFilters, h]
  by_cases hdef : APIVersion.IsDefault version = true
  · rw [if_pos hdef]
    dsimp only
    rw [if_pos hdef, FMap.get_set, if_neg (by decide), FMap.get_set, if_pos rfl]
  · rw [if_neg hdef]
    dsimp only
    rw [if_neg hdef, h]

/-- C5: filter normalization is governed by the version marker. In `Search`,
whenever the marshalled options carry filters, the payload's filters are their
normalized form exactly under the default version and the marshalled form
otherwise; in `GetAll` the request's filters are the normalized input exactly
under the default version and the input otherwise. `"v1"` is not default (so
it bypasses normalization), while `"v2"` and the empty version are. Sorting
introduced by marshalling does not change the filter contents. -/
theorem claim_C5 :
    (∀ (c : MemoryClient) (q : String) (o : SearchOptions),
      (o.memoryOptions.Filters.getD []).isEmpty = false →
      (Search.payload c q (some o)).get "filters"
        = some (.obj (if APIVersion.IsDefault o.Version = true
            then fixAPIV2Filters (some (sortFMap (o.memoryOptions.Filters.getD [])))
            else sortFMap (o.memoryOptions.Filters.getD []))))
    ∧ (∀ (c : MemoryClient) (o : SearchOptions),
      (GetAll.request c (some o)).Filters
        = some (if APIVersion.IsDefault o.Version = true
            then fixAPIV2Filters (some (o.memoryOptions.Filters.getD []))
            else o.memoryOptions.Filters.getD []))
    ∧ APIVersion.IsDefault V1 = false
    ∧ APIVersion.IsDefault V2 = true
    ∧ APIVersion.IsDefault "" = true
    ∧ (∀ f : FMap, (sortFMap f).Perm f) := by
  refine ⟨?_, ?_, by decide, by decide, by decide, fun f => sortLe_perm fmapKeyLe f⟩
  · intro c q o hne
    have hfe : (adjustSearchOptions c o).memoryOptions.Filters = o.memoryOptions.Filters :=
      adjustSearchOptions_Filters c o
    have hz : ¬ (GoVal.jmap ((adjustSearchOptions c o).memoryOptions.Filters)).isZeroJson
        = true := by
      show ¬ (((adjustSearchOptions c o).memoryOptions.Filters.getD []).isEmpty) = true
      rw [hfe, hne]
      exact Bool.false_ne_true
    have hsome : (adjustSearchOptions c o).toJsonMap.get "filters"
        = some (GoVal.jmap ((adjustSearchOptions c o).memoryOptions.Filters)).toJVal := by
      rw [SearchOptions.toJsonMap,
        marshalFields_get _ (searchOptions_bodyKeys_nodup _) _ _
          (mem_bodyFields_filters_search _), if_neg hz]
    have hmemX := FMap.mem_of_get_eq_some _ _ _ hsome
    have hnd : (((adjustSearchOptions c o).toJsonMap).map Prod.fst).Nodup := by
      rw [SearchOptions.toJsonMap]
      exact marshalFields_keys_nodup _ (searchOptions_bodyKeys_nodup _)
    have hXget : (FMap.mergeFrom [("query", .str q)]
        (adjustSearchOptions c o).toJsonMap).get "filters"
        = some (.obj (sortFMap (o.memoryOptions.Filters.getD []))) := by
      rw [FMap.get_mergeFrom_of_mem _ _ _ _ hnd hmemX rfl]
      show some (JVal.obj (sortFMap ((adjustSearchOptions c o).memoryOptions.Filters.getD [])))
        = some (.obj (sortFMap (o.memoryOptions.Filters.getD [])))
      rw [hfe]
    show (searchNormalizeFilters (adjustSearchOptions c o).Version
        (FMap.mergeFrom [("query", .str q)] (adjustSearchOptions c o).toJsonMap)).get "filters"
      = _
    rw [searchNormalizeFilters_get _ _ _ hXget, adjustSearchOptions_Version]
  · intro c o
    simp only [GetAll.request]
    by_cases hdef : APIVersion.IsDefault o.Version = true
    · rw [if_pos hdef, if_pos hdef]
      cases hF : o.memoryOptions.Filters with
      | none => split <;> split <;> rfl
      | some f => split <;> split <;> rfl
    · rw [if_neg hdef, if_neg hdef]
      cases hF : o.memoryOptions.Filters with
      | none => split <;> split <;> rfl
      | some f => split <;> split <;> rfl

/-- Witness for C5 at a concrete input: with the zero (default) version the
filters sent by `Search` are the normalized form of the input filters. -/
theorem claim_C5_witness :
    ((({ memoryOptions := { Filters := some [("a", JVal.str "b")] } }
        : SearchOptions).memoryOptions.Filters.getD []).isEmpty = false)
    ∧ (Search.payload {} "q"
        (some { memoryOptions := { Filters := some [("a", JVal.str "b")] } })).get "filters"
      = some (.obj [("a", .str "b"), ("user_id", .str "*"), ("app_id", .str "*"),
          ("run_id", .str "*")]) := by
  refine ⟨rfl, ?_⟩
  rw [claim_C5.1 {} "q" { memoryOptions := { Filters := some [("a", JVal.str "b")] } } rfl]
  rfl

/-- C6: re-parsing the query string encoded by `structToQuery` yields exactly
the emitted key/value pairs, order-independent, for every options object whose
emitted content stays within single-byte characters (the domain on which the
character-level model of percent-escaping is exact); a fully-populated object
is the special case in which every scalar and sequence field contributes its
pair. -/
theorem claim_C6 :
    (∀ o : MemoryOptions, ByteBounded (queryPairs o.queryFields) →
      (parseQuery o.ToQuery).Perm (queryPairs o.queryFields))
    ∧ (∀ o : SearchOptions, ByteBounded (queryPairs o.queryFields) →
      (parseQuery o.ToQuery).Perm (queryPairs o.queryFields))
    ∧ (∀ o : ProjectOptions, ByteBounded (queryPairs o.queryFields) →
      (parseQuery o.ToQuery).Perm (queryPairs o.queryFields)) := by
  refine ⟨?_, ?_, ?_⟩ <;>
    · intro o hb
      exact parseQuery_valuesEncode_perm _ hb

/-- Fully-populated sample options used by the C6 witness: every field of
`MemoryOptions` is non-zero. -/
def sampleMemoryOptions : MemoryOptions :=
  { APIVersion := "v1", Version := "v2", UserID := "user 1", AgentID := "agent-1",
    AppID := "app~x", RunID := "run/9", Timestamp := 42,
    Metadata := some [("k", .str "v w")], Filters := some [("fk", .str "fv")],
    OrgID := "org", ProjectID := "proj", Infer := true, Page := 2, PageSize := 50,
    Includes := "inc", Excludes := "exc", EnableGraph := true,
    StartDate := "2024-01-01", EndDate := "2024-02-01",
    CustomCategories := [⟨"cat", "desc"⟩], CustomInstructions := "do things",
    Messages := [⟨"user", "hello"⟩] }

/-- Witness for C6 at a fully-populated `MemoryOptions`. -/
theorem claim_C6_witness :
    ByteBounded (queryPairs sampleMemoryOptions.queryFields)
    ∧ (parseQuery sampleMemoryOptions.ToQuery).Perm
        (queryPairs sampleMemoryOptions.queryFields) :=
  ⟨by decide, claim_C6.1 sampleMemoryOptions (by decide)⟩

end Mem0
